import Mathlib

/-!
ChatBot: edit-distance matching and node transition.

A shallow embedding of `src/chatbot.cpp` (`ChatBot::ComputeLevenshteinDistance`,
`ChatBot::ReceiveMessageFromUser`, `ChatBot::SetCurrentNode`, and the constructors,
destructor and assignment operators of `ChatBot`) together with the properties its
specification states about them.

Conventions of the embedding:

* a `std::string` is the list of its `char`s;
* `size_t` values are natural numbers: in `ComputeLevenshteinDistance` they are bounded
  by the lengths of the two strings and never wrap, and the one subtraction that can wrap,
  `answers.size() - 1`, is taken modulo `2 ^ 64`; the conversion of a `size_t` to `int`
  is `toInt`, which wraps modulo `2 ^ 32`;
* a pointer is a `Handle`: `none` is `nullptr`, `some p` designates object `p`;
* calls into the C++ standard library whose outcome the language standard leaves
  open (`std::sort`, `std::uniform_int_distribution`) are parameters of the model,
  constrained by the contract the standard gives them; `gnuStdSort` is the `std::sort`
  of GNU libstdc++, for the places where the outcome of one implementation matters.
-/

/-- A `std::string`: the sequence of its characters. -/
abbrev CppString := List Char

/-- The C function `::toupper` in the "C" locale: the letters `a`..`z` are mapped to
`A`..`Z`, every other character is left alone. -/
def toupper (c : Char) : Char := c.toUpper

/-- Conversion of a `size_t` value to `int` (32 bits, two's complement), as performed by
`int result = costs[n]`, `return n`, `return m` and by passing `answers.size() - 1` as a
bound of the `int` distribution. -/
def toInt (x : Nat) : Int :=
  if x % 2 ^ 32 < 2 ^ 31 then ((x % 2 ^ 32 : Nat) : Int)
  else ((x % 2 ^ 32 : Nat) : Int) - 2 ^ 32

/-- The inner loop of `ComputeLevenshteinDistance` (over `it2`/`j`), for the character
`c1 = *it1`.  The arguments are the rest of `s2` still to visit, the index `j`, the array
`costs` and the variable `corner`; the result is `costs` after the loop. -/
def innerLoop (c1 : Char) : List Char → Nat → List Nat → Nat → List Nat
  | [], _, costs, _ => costs
  | c2 :: rest, j, costs, corner =>
    let upper := costs.getD (j + 1) 0
    let costs' :=
      if c1 = c2 then costs.set (j + 1) corner
      else
        let t := if upper < corner then upper else corner
        costs.set (j + 1) ((if costs.getD j 0 < t then costs.getD j 0 else t) + 1)
    innerLoop c1 rest (j + 1) costs' upper

/-- The outer loop of `ComputeLevenshteinDistance` (over `it1`/`i`): the arguments are the
whole of `s2`, the rest of `s1` still to visit, the index `i` and the array `costs`. -/
def outerLoop (s2 : List Char) : List Char → Nat → List Nat → List Nat
  | [], _, costs => costs
  | c1 :: rest, i, costs =>
    outerLoop s2 rest (i + 1) (innerLoop c1 s2 0 (costs.set 0 (i + 1)) i)

/-- The method `ChatBot::ComputeLevenshteinDistance`. -/
def ComputeLevenshteinDistance (s1 s2 : CppString) : Int :=
  let s1 := s1.map toupper
  let s2 := s2.map toupper
  let m := s1.length
  let n := s2.length
  if m = 0 then toInt n
  else if n = 0 then toInt m
  else toInt ((outerLoop s2 s1 0 (List.range (n + 1))).getD n 0)

/-- The standard recursive definition of the Levenshtein distance (the reference the
specification appeals to): the distance to or from the empty string is the length of the
other string; equal first characters are skipped; otherwise one operation is spent on a
deletion, an insertion or a substitution, whichever is cheapest. -/
def lev : List Char → List Char → Nat
  | [], b => b.length
  | x :: a, [] => (x :: a).length
  | x :: a, y :: b =>
    if x = y then lev a b
    else 1 + min (lev a (y :: b)) (min (lev (x :: a) b) (lev a b))
termination_by a b => a.length + b.length

/-- Edit scripts, the device of the proofs about `lev`: `EditScript a b k` says that `b`
is obtained from `a` by a left-to-right script that keeps some characters and spends `k`
single-character insertions, deletions and substitutions on the others. -/
inductive EditScript : List Char → List Char → Nat → Prop
  | done : EditScript [] [] 0
  | keep (x : Char) {a b : List Char} {k : Nat} :
      EditScript a b k → EditScript (x :: a) (x :: b) k
  | substitute (x y : Char) {a b : List Char} {k : Nat} :
      EditScript a b k → EditScript (x :: a) (y :: b) (k + 1)
  | delete (x : Char) {a b : List Char} {k : Nat} :
      EditScript a b k → EditScript (x :: a) b (k + 1)
  | insert (y : Char) {a b : List Char} {k : Nat} :
      EditScript a b k → EditScript a (y :: b) (k + 1)

/-- One single-character edit: `EditStep a b` says that `b` results from `a` by inserting
one character, deleting one character or substituting one character by another, at any
position. -/
inductive EditStep : List Char → List Char → Prop
  | insert (l r : List Char) (c : Char) : EditStep (l ++ r) (l ++ c :: r)
  | delete (l r : List Char) (c : Char) : EditStep (l ++ c :: r) (l ++ r)
  | substitute (l r : List Char) (c d : Char) : EditStep (l ++ c :: r) (l ++ d :: r)

/-- The string `a` is transformed into `b` by `n` successive single-character edits. -/
inductive Transforms : List Char → List Char → Nat → Prop
  | refl (a : List Char) : Transforms a a 0
  | step {a b c : List Char} {n : Nat} :
      EditStep a b → Transforms b c n → Transforms a c (n + 1)

/-- A pointer: `none` is `nullptr`, `some p` points to the object with identity `p`. -/
abbrev Handle := Option Nat

/-- Modelled from the spec: the class `GraphEdge` of graphedge.h, which chatbot.cpp uses
through `GetKeywords` and `GetChildNode`.  An edge carries its trigger keywords, in their
own order, and the handle of the node it leads to. -/
structure GraphEdge where
  keywords : List CppString
  childNode : Handle
deriving DecidableEq, Repr

/-- Modelled from the spec: the class `GraphNode` of graphnode.h, which chatbot.cpp uses
through `GetAnswers`, `GetNumberOfChildEdges` and `GetChildEdgeAtIndex`.  A node carries
its answer texts and its outgoing edges in child-edge index order. -/
structure GraphNode where
  answers : List CppString
  childEdges : List GraphEdge
deriving DecidableEq, Repr

/-- The data handles of a `ChatBot` (chatbot.h): the owned avatar image and the three
handles that are not owned. -/
structure ChatBot where
  _image : Handle
  _currentNode : Handle
  _rootNode : Handle
  _chatLogic : Handle
deriving DecidableEq, Repr

/-- The local type `EdgeDist` of `ReceiveMessageFromUser`: an edge with the distance of one
of its keywords to the message. -/
abbrev EdgeDist := GraphEdge × Int

/-- The contract the C++ standard gives `std::sort` for the comparison
`a.second < b.second`: the result is a rearrangement of the input in which no element
compares less than an element before it.  Nothing is promised about the relative order of
elements with equal distance. -/
def StdSortContract (sort : List EdgeDist → List EdgeDist) : Prop :=
  ∀ l, (sort l).Perm l ∧ (sort l).Pairwise (fun a b => ¬ b.2 < a.2)

/-- A sort keeps elements of equal distance in their original order (what
`std::stable_sort` promises and `std::sort` does not). -/
def KeepsTiesInOrder (sort : List EdgeDist → List EdgeDist) : Prop :=
  ∀ l d, (sort l).filter (fun ed => decide (ed.2 = d)) = l.filter (fun ed => decide (ed.2 = d))

/-- The loop `for (auto keyword : edge->GetKeywords())`: one `push_back` per keyword. -/
def keywordLoop (edge : GraphEdge) (message : CppString) :
    List CppString → List EdgeDist → List EdgeDist
  | [], levDists => levDists
  | keyword :: rest, levDists =>
    keywordLoop edge message rest
      (levDists ++ [(edge, ComputeLevenshteinDistance keyword message)])

/-- The loop over the child edges of the current node, in index order. -/
def edgeLoop (message : CppString) : List GraphEdge → List EdgeDist → List EdgeDist
  | [], levDists => levDists
  | edge :: rest, levDists =>
    edgeLoop message rest (keywordLoop edge message edge.keywords levDists)

/-- The method `ChatBot::ReceiveMessageFromUser`, up to its last statement
`_currentNode->MoveChatbotToNewNode(newNode)`, a call into `GraphNode`: the result is the
transition target `newNode` handed to that call.  `sort` is the library's `std::sort`,
`graph` gives the node a non-null node handle points to.  The result is `none` when the
method dereferences a null `_currentNode` or when `at(0)` is out of range. -/
def ReceiveMessageFromUser (sort : List EdgeDist → List EdgeDist) (graph : Nat → GraphNode)
    (bot : ChatBot) (message : CppString) : Option Handle :=
  match bot._currentNode with
  | none => none
  | some p =>
    let levDists := edgeLoop message (graph p).childEdges []
    if levDists.length > 0 then
      match (sort levDists)[0]? with
      | some ed => some ed.1.childNode
      | none => none
    else
      some bot._rootNode

/-- The pair the specification expects to be selected: the first pair, in enumeration
order, whose distance is minimal. -/
def firstMinimal (levDists : List EdgeDist) : Option EdgeDist :=
  levDists.find? (fun ed => levDists.all (fun other => decide (ed.2 ≤ other.2)))

/-- Insertion of one element into a sorted list, before (`beforeTies = true`) or after
(`beforeTies = false`) the elements of equal distance. -/
def insertSorted (beforeTies : Bool) (x : EdgeDist) : List EdgeDist → List EdgeDist
  | [] => [x]
  | y :: ys =>
    if x.2 < y.2 ∨ (beforeTies = true ∧ x.2 = y.2) then x :: y :: ys
    else y :: insertSorted beforeTies x ys

/-- An insertion sort that keeps ties in their original order: one implementation that
meets the contract of `std::sort`. -/
def stableSort : List EdgeDist → List EdgeDist
  | [] => []
  | x :: xs => insertSorted true x (stableSort xs)

/-- The contract the C++ standard gives `std::uniform_int_distribution<int> dis(a, b)`:
for `a ≤ b` the value drawn lies in the closed range from `a` to `b`. -/
def UniformIntContract (draw : Int → Int → Int) : Prop :=
  ∀ a b, a ≤ b → a ≤ draw a b ∧ draw a b ≤ b

/-- The ways a call can fail: a null pointer is dereferenced, `at` throws
`std::out_of_range`, or a `std::uniform_int_distribution` is used with bounds `a > b`,
outside its precondition, where the behaviour is undefined (the GNU libstdc++
implementation then recurses without end and never yields a value). -/
inductive Fault where
  | nullDereference
  | outOfRange
  | invalidDistribution
deriving DecidableEq, Repr

/-- Modelled from the spec: the message sink behind `_chatLogic`, the class `ChatLogic` of
chatlogic.h.  It is represented by the messages it has been sent so far, oldest first. -/
abbrev MessageSink := List CppString

/-- Modelled from the spec: `ChatLogic::SendMessageToUser`, the single operation of the
sink; it takes one message and returns nothing. -/
def SendMessageToUser (sink : MessageSink) (message : CppString) : MessageSink :=
  sink ++ [message]

/-- What a call of `SetCurrentNode` leaves behind: the bot, the messages the chat logic has
been sent, and the failure that ended the call, if any. -/
structure Outcome where
  bot : ChatBot
  sent : MessageSink
  fault : Option Fault
deriving DecidableEq, Repr

/-- The method `ChatBot::SetCurrentNode`.  `draw a b` is the value `dis(generator)` yields
for the distribution `dis(a, b)` with `a ≤ b`; `sent` is the state of the message sink
before the call.  The bound `answers.size() - 1` is computed in `size_t` (64 bits) and
narrowed to the `int` the distribution takes: it is `-1` for an empty list and negative
again from `2 ^ 31 + 1` answers on.  With a negative bound the distribution is outside its
precondition and no value is drawn.  `answers.at` checks its index (converted to `size_t`,
so a negative index is out of range) and throws `std::out_of_range`. -/
def SetCurrentNode (draw : Int → Int → Int) (graph : Nat → GraphNode)
    (bot : ChatBot) (sent : MessageSink) (node : Handle) : Outcome :=
  let bot := { bot with _currentNode := node }
  match bot._currentNode with
  | none => { bot := bot, sent := sent, fault := some Fault.nullDereference }
  | some p =>
    let answers := (graph p).answers
    let bound := toInt ((answers.length + 2 ^ 64 - 1) % 2 ^ 64)
    if bound < 0 then
      { bot := bot, sent := sent, fault := some Fault.invalidDistribution }
    else
      let index := draw 0 bound
      match (if index < 0 then none else answers[index.toNat]?) with
      | none => { bot := bot, sent := sent, fault := some Fault.outOfRange }
      | some answer =>
        match bot._chatLogic with
        | none => { bot := bot, sent := sent, fault := some Fault.nullDereference }
        | some _ => { bot := bot, sent := SendMessageToUser sent answer, fault := none }

/-- The character `c'` is the letter `c` up to case: `c` itself, its upper-case form or
its lower-case form. -/
def SameLetter (c c' : Char) : Prop :=
  c' = c ∨ c' = c.toUpper ∨ c' = c.toLower

/-- Sample data: a graph whose node `0` has the given outgoing edges and the answers "A"
and "B"; every other node is a leaf with the single answer "A". -/
def graphOf (edges : List GraphEdge) : Nat → GraphNode := fun p =>
  if p = 0 then { answers := ["A".toList, "B".toList], childEdges := edges }
  else { answers := ["A".toList], childEdges := [] }

/-- Sample data: a bot standing on node `0`, with root node `9`, a chat logic and no
image. -/
def sampleBot : ChatBot :=
  { _image := none, _currentNode := some 0, _rootNode := some 9, _chatLogic := some 0 }

/-- Sample data: the edge with the keyword "hi", leading to node `1`. -/
def hiEdge : GraphEdge := { keywords := ["hi".toList], childNode := some 1 }

/-- Sample data: the edge with the keyword "hey", leading to node `2`. -/
def heyEdge : GraphEdge := { keywords := ["hey".toList], childNode := some 2 }

/-- Sample data: the edge with the keyword "abc", leading to node `1`. -/
def abcEdge : GraphEdge := { keywords := ["abc".toList], childNode := some 1 }

/-- Sample data: the edge with the keyword "yes", leading to node `1`. -/
def yesEdge : GraphEdge := { keywords := ["yes".toList], childNode := some 1 }

/-- Sample data: an edge whose keyword consists of `2 ^ 31` letters `a`, leading to node
`2`. -/
def longEdge : GraphEdge := { keywords := [List.replicate (2 ^ 31) 'a'], childNode := some 2 }

/-- Sample data: a generator whose draw is always the lower bound of the distribution. -/
def drawLowest : Int → Int → Int := fun a _ => a

/-- The array `costs` of `ComputeLevenshteinDistance` as it stands when the result is read:
allocated by `new size_t[n + 1]`, filled by the first loop and rewritten by the two nested
loops.  It is `none` on the two early returns, where no array is allocated. -/
def costsVector (s1 s2 : CppString) : Option (List Nat) :=
  let s1 := s1.map toupper
  let s2 := s2.map toupper
  let m := s1.length
  let n := s2.length
  if m = 0 then none
  else if n = 0 then none
  else some (outerLoop s2 s1 0 (List.range (n + 1)))

/-- The memory the constructors, the destructor and the assignment operators of `ChatBot`
act on: the `ChatBot` object at each address, the content of the `wxBitmap` object of each
identity (kept abstract), the identities of the objects `delete` has destroyed, oldest
first, and the identity the next `new` hands out. -/
structure Memory where
  bots : Nat → ChatBot
  bitmap : Nat → Nat
  deleted : List Nat
  fresh : Nat

/-- Assignment of a whole `ChatBot` object at an address. -/
def setBot (m : Memory) (addr : Nat) (bot : ChatBot) : Memory :=
  { m with bots := fun a => if a = addr then bot else m.bots a }

/-- The expression `delete p`: nothing happens for `nullptr`, otherwise the object `p`
points to is destroyed. -/
def deleteObject (m : Memory) (p : Handle) : Memory :=
  match p with
  | none => m
  | some q => { m with deleted := m.deleted ++ [q] }

/-- The expression `new wxBitmap(*source)`: dereferencing a null `source` fails; otherwise a
new bitmap object with the content of the source is created and its handle returned. -/
def newBitmapCopy (m : Memory) (source : Handle) : Except Fault (Memory × Handle) :=
  match source with
  | none => Except.error Fault.nullDereference
  | some i =>
    Except.ok
      ({ m with
          bitmap := fun a => if a = m.fresh then m.bitmap i else m.bitmap a,
          fresh := m.fresh + 1 },
        some m.fresh)

/-- The constructor `ChatBot::ChatBot()` ("constructor WITHOUT memory allocation") for the
object at address `this`; `_currentNode` is null by its initialiser in chatbot.h. -/
def DefaultConstructor (m : Memory) (this : Nat) : Memory :=
  setBot m this { _image := none, _currentNode := none, _rootNode := none, _chatLogic := none }

/-- The destructor `ChatBot::~ChatBot()` for the object at address `this`. -/
def Destructor (m : Memory) (this : Nat) : Memory :=
  if (m.bots this)._image ≠ none then
    let m1 := deleteObject m (m.bots this)._image
    setBot m1 this { m1.bots this with _image := none }
  else m

/-- The copy constructor `ChatBot::ChatBot(const ChatBot& other)`: the object at address
`this` is built from the one at address `other`. -/
def CopyConstructor (m : Memory) (this other : Nat) : Except Fault Memory :=
  match newBitmapCopy m (m.bots other)._image with
  | Except.error fault => Except.error fault
  | Except.ok (m1, image) =>
    Except.ok (setBot m1 this
      { _image := image,
        _currentNode := (m1.bots other)._currentNode,
        _rootNode := (m1.bots other)._rootNode,
        _chatLogic := (m1.bots other)._chatLogic })

/-- The copy assignment `ChatBot::operator=(const ChatBot& other)` on the object at address
`this`. -/
def CopyAssignment (m : Memory) (this other : Nat) : Except Fault Memory :=
  if this ≠ other then
    let m1 := deleteObject m (m.bots this)._image
    let m2 := deleteObject m1 (m1.bots this)._currentNode
    let m3 := deleteObject m2 (m2.bots this)._rootNode
    let m4 := deleteObject m3 (m3.bots this)._chatLogic
    match newBitmapCopy m4 (m4.bots other)._image with
    | Except.error fault => Except.error fault
    | Except.ok (m5, image) =>
      Except.ok (setBot m5 this
        { _image := image,
          _currentNode := (m5.bots other)._currentNode,
          _rootNode := (m5.bots other)._rootNode,
          _chatLogic := (m5.bots other)._chatLogic })
  else Except.ok m

/-- The move assignment `ChatBot::operator=(ChatBot&& other)` on the object at address
`this`. -/
def MoveAssignment (m : Memory) (this other : Nat) : Memory :=
  if this ≠ other then
    let m1 := deleteObject m (m.bots this)._image
    let m2 := deleteObject m1 (m1.bots this)._currentNode
    let m3 := deleteObject m2 (m2.bots this)._rootNode
    let m4 := deleteObject m3 (m3.bots this)._chatLogic
    let m5 := setBot m4 this (m4.bots other)
    setBot m5 other
      { _image := none, _currentNode := none, _rootNode := none, _chatLogic := none }
  else m

/-- Sample data: a graph in which every node has no answer and no outgoing edge. -/
def silentGraph : Nat → GraphNode := fun _ => { answers := [], childEdges := [] }

/-- Sample data: a memory with a bot at address `0` (image `13`, current node `10`, root
node `11`, chat logic `12`) and a bot at address `1` (image `14`, current node `20`, root
node `11`, chat logic `12`); nothing has been deleted and `new` hands out `100` next. -/
def sampleMemory : Memory :=
  { bots := fun a =>
      if a = 0 then
        { _image := some 13, _currentNode := some 10, _rootNode := some 11,
          _chatLogic := some 12 }
      else
        { _image := some 14, _currentNode := some 20, _rootNode := some 11,
          _chatLogic := some 12 },
    bitmap := fun i => i,
    deleted := [],
    fresh := 100 }

/-- The comparison handed to `std::sort` in `ReceiveMessageFromUser`:
`a.second < b.second`. -/
def lessDist (a b : EdgeDist) : Bool := decide (a.2 < b.2)

/-- The element `*(begin + i)` of the vector being sorted (indices stay within the vector; a
read outside yields a pair without edge data). -/
def elemAt (v : List EdgeDist) (i : Nat) : EdgeDist :=
  v.getD i ({ keywords := [], childNode := none }, 0)

/-- The library's `std::iter_swap` on positions `i` and `j`. -/
def iterSwap (v : List EdgeDist) (i j : Nat) : List EdgeDist :=
  (v.set i (elemAt v j)).set j (elemAt v i)

/-- The library's `__move_median_to_first(result, a, b, c, comp)`. -/
def moveMedianToFirst (v : List EdgeDist) (result a b c : Nat) : List EdgeDist :=
  if lessDist (elemAt v a) (elemAt v b) then
    if lessDist (elemAt v b) (elemAt v c) then iterSwap v result b
    else if lessDist (elemAt v a) (elemAt v c) then iterSwap v result c
    else iterSwap v result a
  else if lessDist (elemAt v a) (elemAt v c) then iterSwap v result a
  else if lessDist (elemAt v b) (elemAt v c) then iterSwap v result c
  else iterSwap v result b

/-- The loop `while (comp(first, pivot)) ++first` of `__unguarded_partition`; the first
argument bounds the number of steps by the length of the vector. -/
def scanUp (v : List EdgeDist) (pivot : Nat) : Nat → Nat → Nat
  | 0, first => first
  | steps + 1, first =>
    if lessDist (elemAt v first) (elemAt v pivot) then scanUp v pivot steps (first + 1)
    else first

/-- The loop `while (comp(pivot, last)) --last` of `__unguarded_partition`. -/
def scanDown (v : List EdgeDist) (pivot : Nat) : Nat → Nat
  | 0 => 0
  | last + 1 =>
    if lessDist (elemAt v pivot) (elemAt v (last + 1)) then scanDown v pivot last
    else last + 1

/-- The library's `__unguarded_partition(first, last, pivot, comp)`: the vector after the
swaps and the returned cut; the first argument bounds the number of rounds. -/
def unguardedPartition (pivot : Nat) :
    Nat → List EdgeDist → Nat → Nat → List EdgeDist × Nat
  | 0, v, first, _ => (v, first)
  | rounds + 1, v, first, last =>
    let first1 := scanUp v pivot v.length first
    let last1 := scanDown v pivot (last - 1)
    if ¬ first1 < last1 then (v, first1)
    else unguardedPartition pivot rounds (iterSwap v first1 last1) (first1 + 1) last1

/-- The library's `__unguarded_partition_pivot(first, last, comp)`. -/
def unguardedPartitionPivot (v : List EdgeDist) (first last : Nat) : List EdgeDist × Nat :=
  let mid := first + (last - first) / 2
  let v1 := moveMedianToFirst v first (first + 1) mid (last - 1)
  unguardedPartition first v1.length v1 (first + 1) last

/-- The library's `__push_heap(first, holeIndex, topIndex, value, comp)`; the first argument
bounds the number of steps. -/
def pushHeap (first topIndex : Nat) (value : EdgeDist) :
    Nat → List EdgeDist → Nat → List EdgeDist
  | 0, v, holeIndex => v.set (first + holeIndex) value
  | steps + 1, v, holeIndex =>
    let parent := (holeIndex - 1) / 2
    if holeIndex > topIndex ∧ lessDist (elemAt v (first + parent)) value = true then
      pushHeap first topIndex value steps
        (v.set (first + holeIndex) (elemAt v (first + parent))) parent
    else v.set (first + holeIndex) value

/-- The first loop of `__adjust_heap`: the vector, the hole and `secondChild` after it; the
first argument bounds the number of steps. -/
def adjustHeapLoop (first len : Nat) :
    Nat → List EdgeDist → Nat → Nat → List EdgeDist × Nat × Nat
  | 0, v, holeIndex, secondChild => (v, holeIndex, secondChild)
  | steps + 1, v, holeIndex, secondChild =>
    if secondChild < (len - 1) / 2 then
      let child := 2 * (secondChild + 1)
      let child1 :=
        if lessDist (elemAt v (first + child)) (elemAt v (first + (child - 1))) then child - 1
        else child
      adjustHeapLoop first len steps
        (v.set (first + holeIndex) (elemAt v (first + child1))) child1 child1
    else (v, holeIndex, secondChild)

/-- The library's `__adjust_heap(first, holeIndex, len, value, comp)`. -/
def adjustHeap (v : List EdgeDist) (first holeIndex len : Nat) (value : EdgeDist) :
    List EdgeDist :=
  let topIndex := holeIndex
  match adjustHeapLoop first len len v holeIndex holeIndex with
  | (v1, hole1, secondChild) =>
    if len % 2 = 0 ∧ secondChild = (len - 2) / 2 then
      let child := 2 * (secondChild + 1)
      pushHeap first topIndex value len
        (v1.set (first + hole1) (elemAt v1 (first + (child - 1)))) (child - 1)
    else pushHeap first topIndex value len v1 hole1

/-- The library's `__pop_heap(first, last, result, comp)`. -/
def popHeap (v : List EdgeDist) (first last result : Nat) : List EdgeDist :=
  let value := elemAt v result
  adjustHeap (v.set result (elemAt v first)) first 0 (last - first) value

/-- The loop of `__make_heap`, from `parent` down to `0`. -/
def makeHeapLoop (first len : Nat) : Nat → List EdgeDist → List EdgeDist
  | 0, v => adjustHeap v first 0 len (elemAt v first)
  | parent + 1, v =>
    makeHeapLoop first len parent
      (adjustHeap v first (parent + 1) len (elemAt v (first + (parent + 1))))

/-- The library's `__make_heap(first, last, comp)`. -/
def makeHeap (v : List EdgeDist) (first last : Nat) : List EdgeDist :=
  if last - first < 2 then v
  else makeHeapLoop first (last - first) ((last - first - 2) / 2) v

/-- The library's `__sort_heap(first, last, comp)`, by the number of elements still in the
heap. -/
def sortHeap (first : Nat) : Nat → List EdgeDist → List EdgeDist
  | 0, v => v
  | size + 1, v =>
    if size + 1 > 1 then sortHeap first size (popHeap v first (first + size) (first + size))
    else v

/-- The library's `__partial_sort(first, last, last, comp)`, the heap sort `std::sort` falls
back on: `__heap_select` makes a heap of the whole range, `__sort_heap` sorts it. -/
def partialSort (v : List EdgeDist) (first last : Nat) : List EdgeDist :=
  sortHeap first (last - first) (makeHeap v first last)

/-- The library's `__introsort_loop(first, last, depth_limit, comp)`, with `_S_threshold`
equal to 16. -/
def introsortLoop : Nat → List EdgeDist → Nat → Nat → List EdgeDist
  | 0, v, first, last =>
    if last - first > 16 then partialSort v first last else v
  | depthLimit + 1, v, first, last =>
    if last - first > 16 then
      match unguardedPartitionPivot v first last with
      | (v1, cut) =>
        introsortLoop depthLimit (introsortLoop depthLimit v1 cut last) first cut
    else v

/-- The loop of `__unguarded_linear_insert(last, comp)` for the value `val` taken from
position `last`. -/
def unguardedLinearInsert (val : EdgeDist) : Nat → List EdgeDist → List EdgeDist
  | 0, v => v.set 0 val
  | next + 1, v =>
    if lessDist val (elemAt v next) then
      unguardedLinearInsert val next (v.set (next + 1) (elemAt v next))
    else v.set (next + 1) val

/-- One round of the loop of `__insertion_sort(first, last, comp)`, for position `i`. -/
def insertionStep (v : List EdgeDist) (first i : Nat) : List EdgeDist :=
  if lessDist (elemAt v i) (elemAt v first) then
    v.take first ++ [elemAt v i] ++ (v.drop first).take (i - first) ++ v.drop (i + 1)
  else unguardedLinearInsert (elemAt v i) i v

/-- The library's `__insertion_sort(first, last, comp)`: the rounds for the positions
`i`, `i + 1`, ... (`count` of them). -/
def insertionSortLoop (first : Nat) : Nat → Nat → List EdgeDist → List EdgeDist
  | 0, _, v => v
  | count + 1, i, v => insertionSortLoop first count (i + 1) (insertionStep v first i)

/-- The library's `__unguarded_insertion_sort(first, last, comp)`: the rounds for the
positions `i`, `i + 1`, ... (`count` of them). -/
def unguardedInsertionSortLoop : Nat → Nat → List EdgeDist → List EdgeDist
  | 0, _, v => v
  | count + 1, i, v =>
    unguardedInsertionSortLoop count (i + 1) (unguardedLinearInsert (elemAt v i) i v)

/-- The library's `__final_insertion_sort(first, last, comp)`. -/
def finalInsertionSort (v : List EdgeDist) (first last : Nat) : List EdgeDist :=
  if last - first > 16 then
    unguardedInsertionSortLoop (last - (first + 16)) (first + 16)
      (insertionSortLoop first (first + 16 - (first + 1)) (first + 1) v)
  else if first = last then v
  else insertionSortLoop first (last - (first + 1)) (first + 1) v

/-- The library's `__lg(n)`: the position of the highest set bit of `n`; the first argument
bounds the number of halvings. -/
def lgLoop : Nat → Nat → Nat
  | 0, _ => 0
  | steps + 1, n => if n < 2 then 0 else lgLoop steps (n / 2) + 1

/-- The function `std::sort(begin, end, comp)` as GNU libstdc++ implements it
(bits/stl_algo.h, `std::__sort`): an introspective sort down to ranges of 16 elements,
followed by an insertion sort. -/
def gnuStdSort (v : List EdgeDist) : List EdgeDist :=
  if v.length = 0 then v
  else finalInsertionSort (introsortLoop (lgLoop v.length v.length * 2) v 0 v.length) 0 v.length

/-- Sample data: seventeen edges with the keyword "hi", leading to the nodes `1` to `17`. -/
def tiedEdges : List GraphEdge :=
  (List.range 17).map (fun i => { keywords := ["hi".toList], childNode := some (i + 1) })

/-- Sample data: a graph in which every node has `2 ^ 31 + 1` answers "A" and no outgoing
edge. -/
def crowdedGraph : Nat → GraphNode := fun _ =>
  { answers := List.replicate (2 ^ 31 + 1) "A".toList, childEdges := [] }

/-! ## The reference distance: basic facts -/

theorem lev_nil_left (b : List Char) : lev [] b = b.length := by
  rw [lev]

theorem lev_nil_right (a : List Char) : lev a [] = a.length := by
  cases a <;> simp [lev]

theorem lev_cons_cons (x y : Char) (a b : List Char) :
    lev (x :: a) (y :: b) =
      if x = y then lev a b
      else 1 + min (lev a (y :: b)) (min (lev (x :: a) b) (lev a b)) := by
  rw [lev]

theorem lev_cons_same (x : Char) (a b : List Char) : lev (x :: a) (x :: b) = lev a b := by
  rw [lev_cons_cons, if_pos rfl]

theorem lev_comm (a b : List Char) : lev a b = lev b a := by
  induction a, b using lev.induct with
  | case1 b => rw [lev_nil_left, lev_nil_right]
  | case2 x a => rw [lev_nil_left, lev_nil_right]
  | case3 a y b ih =>
    rw [lev_cons_same, lev_cons_same, ih]
  | case4 x a y b h ih1 ih2 ih3 =>
    have h' : ¬ y = x := fun e => h e.symm
    rw [lev_cons_cons, lev_cons_cons, if_neg h, if_neg h', ih1, ih2, ih3]
    omega

theorem lev_step_aux (n : Nat) : ∀ a b : List Char, a.length + b.length ≤ n →
    ∀ x : Char, lev (x :: a) b ≤ lev a b + 1 ∧ lev a b ≤ lev (x :: a) b + 1 := by
  induction n with
  | zero =>
    intro a b h x
    have ha : a = [] := List.length_eq_zero.mp (by omega)
    have hb : b = [] := List.length_eq_zero.mp (by omega)
    subst ha hb
    simp [lev]
  | succ n ih =>
    intro a b h x
    cases b with
    | nil => simp only [lev_nil_right, List.length_cons]; omega
    | cons y b =>
      have hsz : a.length + b.length ≤ n := by simp at h; omega
      -- the second argument grows by one: the mirrored induction hypothesis
      have up2 : lev a (y :: b) ≤ lev a b + 1 := by
        have := (ih b a (by omega) y).1
        rwa [lev_comm (y :: b) a, lev_comm b a] at this
      have dn2 : lev a b ≤ lev a (y :: b) + 1 := by
        have := (ih b a (by omega) y).2
        rwa [lev_comm (y :: b) a, lev_comm b a] at this
      have dn1 := (ih a b hsz x).2
      rw [lev_cons_cons]
      by_cases hxy : x = y
      · rw [if_pos hxy]
        exact ⟨dn2, up2⟩
      · rw [if_neg hxy]
        omega

theorem lev_cons_left_le (x : Char) (a b : List Char) : lev (x :: a) b ≤ lev a b + 1 :=
  (lev_step_aux _ a b (Nat.le_refl _) x).1

theorem lev_le_cons_left (x : Char) (a b : List Char) : lev a b ≤ lev (x :: a) b + 1 :=
  (lev_step_aux _ a b (Nat.le_refl _) x).2

theorem lev_cons_right_le (y : Char) (a b : List Char) : lev a (y :: b) ≤ lev a b + 1 := by
  rw [lev_comm a (y :: b), lev_comm a b]
  exact lev_cons_left_le y b a

theorem lev_le_cons_right (y : Char) (a b : List Char) : lev a b ≤ lev a (y :: b) + 1 := by
  rw [lev_comm a (y :: b), lev_comm a b]
  exact lev_le_cons_left y b a

theorem lev_le_max (a b : List Char) : lev a b ≤ max a.length b.length := by
  induction a, b using lev.induct with
  | case1 b => simp [lev_nil_left]
  | case2 x a => simp [lev_nil_right]
  | case3 a y b ih =>
    rw [lev_cons_same]
    simp only [List.length_cons]
    omega
  | case4 x a y b h ih1 ih2 ih3 =>
    rw [lev_cons_cons, if_neg h]
    simp only [List.length_cons] at *
    omega

theorem lev_le_of_script {a b : List Char} {k : Nat} (h : EditScript a b k) : lev a b ≤ k := by
  induction h with
  | done => simp [lev]
  | keep x _ ih => rwa [lev_cons_same]
  | @substitute x y a b k _ ih =>
    rw [lev_cons_cons]
    split <;> omega
  | @delete x a b k _ ih =>
    have := lev_cons_left_le x a b
    omega
  | @insert y a b k _ ih =>
    have := lev_cons_right_le y a b
    omega

theorem script_insert_all (b : List Char) : EditScript [] b b.length := by
  induction b with
  | nil => exact EditScript.done
  | cons y b ih => exact EditScript.insert y ih

theorem script_delete_all (a : List Char) : EditScript a [] a.length := by
  induction a with
  | nil => exact EditScript.done
  | cons x a ih => exact EditScript.delete x ih

theorem script_of_lev (a b : List Char) : EditScript a b (lev a b) := by
  induction a, b using lev.induct with
  | case1 b => rw [lev_nil_left]; exact script_insert_all b
  | case2 x a => rw [lev_nil_right]; exact script_delete_all (x :: a)
  | case3 a y b ih => rw [lev_cons_same]; exact EditScript.keep y ih
  | case4 x a y b h ih1 ih2 ih3 =>
    rw [lev_cons_cons, if_neg h]
    rcases Nat.le_total (lev a (y :: b)) (min (lev (x :: a) b) (lev a b)) with h1 | h1
    · rw [Nat.min_eq_left h1, Nat.add_comm]
      exact EditScript.delete x ih1
    · rw [Nat.min_eq_right h1]
      rcases Nat.le_total (lev (x :: a) b) (lev a b) with h2 | h2
      · rw [Nat.min_eq_left h2, Nat.add_comm]
        exact EditScript.insert y ih2
      · rw [Nat.min_eq_right h2, Nat.add_comm]
        exact EditScript.substitute x y ih3

theorem script_snoc_keep (x : Char) {a b : List Char} {k : Nat} (h : EditScript a b k) :
    EditScript (a ++ [x]) (b ++ [x]) k := by
  induction h with
  | done => exact EditScript.keep x EditScript.done
  | keep z _ ih => exact EditScript.keep z ih
  | substitute z w _ ih => exact EditScript.substitute z w ih
  | delete z _ ih => exact EditScript.delete z ih
  | insert w _ ih => exact EditScript.insert w ih

theorem script_snoc_substitute (x y : Char) {a b : List Char} {k : Nat}
    (h : EditScript a b k) : EditScript (a ++ [x]) (b ++ [y]) (k + 1) := by
  induction h with
  | done => exact EditScript.substitute x y EditScript.done
  | keep z _ ih => exact EditScript.keep z ih
  | substitute z w _ ih => exact EditScript.substitute z w ih
  | delete z _ ih => exact EditScript.delete z ih
  | insert w _ ih => exact EditScript.insert w ih

theorem script_snoc_delete (x : Char) {a b : List Char} {k : Nat}
    (h : EditScript a b k) : EditScript (a ++ [x]) b (k + 1) := by
  induction h with
  | done => exact EditScript.delete x EditScript.done
  | keep z _ ih => exact EditScript.keep z ih
  | substitute z w _ ih => exact EditScript.substitute z w ih
  | delete z _ ih => exact EditScript.delete z ih
  | insert w _ ih => exact EditScript.insert w ih

theorem script_snoc_insert (y : Char) {a b : List Char} {k : Nat}
    (h : EditScript a b k) : EditScript a (b ++ [y]) (k + 1) := by
  induction h with
  | done => exact EditScript.insert y EditScript.done
  | keep z _ ih => exact EditScript.keep z ih
  | substitute z w _ ih => exact EditScript.substitute z w ih
  | delete z _ ih => exact EditScript.delete z ih
  | insert w _ ih => exact EditScript.insert w ih

theorem script_reverse {a b : List Char} {k : Nat} (h : EditScript a b k) :
    EditScript a.reverse b.reverse k := by
  induction h with
  | done => exact EditScript.done
  | keep x _ ih => simpa using script_snoc_keep x ih
  | substitute x y _ ih => simpa using script_snoc_substitute x y ih
  | delete x _ ih => simpa using script_snoc_delete x ih
  | insert y _ ih => simpa using script_snoc_insert y ih

theorem lev_reverse_le (a b : List Char) : lev a.reverse b.reverse ≤ lev a b :=
  lev_le_of_script (script_reverse (script_of_lev a b))

theorem lev_reverse (a b : List Char) : lev a.reverse b.reverse = lev a b := by
  apply Nat.le_antisymm (lev_reverse_le a b)
  have := lev_reverse_le a.reverse b.reverse
  simpa using this

theorem lev_self (a : List Char) : lev a a = 0 := by
  induction a with
  | nil => rw [lev_nil_left]; rfl
  | cons x a ih => rw [lev_cons_same, ih]

theorem eq_of_lev_eq_zero (a b : List Char) : lev a b = 0 → a = b := by
  induction a, b using lev.induct with
  | case1 b =>
    rw [lev_nil_left]
    intro h
    exact (List.length_eq_zero.mp h).symm
  | case2 x a =>
    rw [lev_nil_right]
    intro h
    simp at h
  | case3 a y b ih =>
    rw [lev_cons_same]
    intro h
    rw [ih h]
  | case4 x a y b h ih1 ih2 ih3 =>
    rw [lev_cons_cons, if_neg h]
    intro h0
    omega

theorem script_cost_of_disjoint {a b : List Char} {k : Nat} (h : EditScript a b k) :
    (∀ x ∈ a, x ∉ b) → a.length ≤ k := by
  induction h with
  | done => intro _; exact Nat.le_refl _
  | @keep x a b k _ _ =>
    intro hd
    exact absurd (List.mem_cons_self x b) (hd x (List.mem_cons_self x a))
  | @substitute x y a b k _ ih =>
    intro hd
    have := ih (fun z hz hzb => hd z (List.mem_cons_of_mem _ hz) (List.mem_cons_of_mem _ hzb))
    simp only [List.length_cons]
    omega
  | @delete x a b k _ ih =>
    intro hd
    have := ih (fun z hz hzb => hd z (List.mem_cons_of_mem _ hz) hzb)
    simp only [List.length_cons]
    omega
  | @insert y a b k _ ih =>
    intro hd
    have := ih (fun z hz hzb => hd z hz (List.mem_cons_of_mem _ hzb))
    omega

theorem lev_of_disjoint (a b : List Char) (hd : ∀ x ∈ a, x ∉ b) (hlen : b.length ≤ a.length) :
    lev a b = a.length := by
  apply Nat.le_antisymm
  · have := lev_le_max a b
    omega
  · exact script_cost_of_disjoint (script_of_lev a b) hd

/-! ## The reference distance is the least number of single-character edits -/

theorem editStep_cons (x : Char) {a b : List Char} (h : EditStep a b) :
    EditStep (x :: a) (x :: b) := by
  cases h with
  | insert l r c => exact EditStep.insert (x :: l) r c
  | delete l r c => exact EditStep.delete (x :: l) r c
  | substitute l r c d => exact EditStep.substitute (x :: l) r c d

theorem transforms_cons (x : Char) {a b : List Char} {n : Nat} (h : Transforms a b n) :
    Transforms (x :: a) (x :: b) n := by
  induction h with
  | refl a => exact Transforms.refl _
  | step hs _ ih => exact Transforms.step (editStep_cons x hs) ih

theorem transforms_of_script {a b : List Char} {k : Nat} (h : EditScript a b k) :
    Transforms a b k := by
  induction h with
  | done => exact Transforms.refl []
  | keep x _ ih => exact transforms_cons x ih
  | @substitute x y a b k _ ih =>
    exact Transforms.step (EditStep.substitute [] a x y) (transforms_cons y ih)
  | @delete x a b k _ ih => exact Transforms.step (EditStep.delete [] a x) ih
  | @insert y a b k _ ih =>
    exact Transforms.step (EditStep.insert [] a y) (transforms_cons y ih)

theorem script_trans_aux (N : Nat) : ∀ (a b c : List Char) (k l : Nat),
    a.length + b.length + c.length ≤ N → EditScript a b k → EditScript b c l →
    ∃ m, m ≤ k + l ∧ EditScript a c m := by
  induction N with
  | zero =>
    intro a b c k l hN s1 s2
    have ha : a = [] := List.length_eq_zero.mp (by omega)
    have hb : b = [] := List.length_eq_zero.mp (by omega)
    subst ha hb
    exact ⟨l, by omega, s2⟩
  | succ N ih =>
    intro a b c k l hN s1 s2
    cases s1 with
    | done => exact ⟨l, by omega, s2⟩
    | @delete x a' _ k' s1' =>
      obtain ⟨m, hm, s⟩ := ih a' b c k' l (by simp at hN; omega) s1' s2
      exact ⟨m + 1, by omega, EditScript.delete x s⟩
    | @keep y a' b' _ s1' =>
      cases s2 with
      | @keep _ _ c' _ s2' =>
        obtain ⟨m, hm, s⟩ := ih a' b' c' k l (by simp at hN; omega) s1' s2'
        exact ⟨m, hm, EditScript.keep y s⟩
      | @substitute _ z _ c' l' s2' =>
        obtain ⟨m, hm, s⟩ := ih a' b' c' k l' (by simp at hN; omega) s1' s2'
        exact ⟨m + 1, by omega, EditScript.substitute y z s⟩
      | @delete _ _ _ l' s2' =>
        obtain ⟨m, hm, s⟩ := ih a' b' c k l' (by simp at hN; omega) s1' s2'
        exact ⟨m + 1, by omega, EditScript.delete y s⟩
      | @insert z _ c' l' s2' =>
        obtain ⟨m, hm, s⟩ := ih (y :: a') (y :: b') c' k l' (by simp at hN ⊢; omega)
          (EditScript.keep y s1') s2'
        exact ⟨m + 1, by omega, EditScript.insert z s⟩
    | @substitute x y a' b' k' s1' =>
      cases s2 with
      | @keep _ _ c' _ s2' =>
        obtain ⟨m, hm, s⟩ := ih a' b' c' k' l (by simp at hN; omega) s1' s2'
        exact ⟨m + 1, by omega, EditScript.substitute x y s⟩
      | @substitute _ z _ c' l' s2' =>
        obtain ⟨m, hm, s⟩ := ih a' b' c' k' l' (by simp at hN; omega) s1' s2'
        exact ⟨m + 1, by omega, EditScript.substitute x z s⟩
      | @delete _ _ _ l' s2' =>
        obtain ⟨m, hm, s⟩ := ih a' b' c k' l' (by simp at hN; omega) s1' s2'
        exact ⟨m + 1, by omega, EditScript.delete x s⟩
      | @insert z _ c' l' s2' =>
        obtain ⟨m, hm, s⟩ := ih (x :: a') (y :: b') c' (k' + 1) l' (by simp at hN ⊢; omega)
          (EditScript.substitute x y s1') s2'
        exact ⟨m + 1, by omega, EditScript.insert z s⟩
    | @insert y _ b' k' s1' =>
      cases s2 with
      | @keep _ _ c' _ s2' =>
        obtain ⟨m, hm, s⟩ := ih a b' c' k' l (by simp at hN; omega) s1' s2'
        exact ⟨m + 1, by omega, EditScript.insert y s⟩
      | @substitute _ z _ c' l' s2' =>
        obtain ⟨m, hm, s⟩ := ih a b' c' k' l' (by simp at hN; omega) s1' s2'
        exact ⟨m + 1, by omega, EditScript.insert z s⟩
      | @delete _ _ _ l' s2' =>
        obtain ⟨m, hm, s⟩ := ih a b' c k' l' (by simp at hN; omega) s1' s2'
        exact ⟨m, by omega, s⟩
      | @insert z _ c' l' s2' =>
        obtain ⟨m, hm, s⟩ := ih a (y :: b') c' (k' + 1) l' (by simp at hN ⊢; omega)
          (EditScript.insert y s1') s2'
        exact ⟨m + 1, by omega, EditScript.insert z s⟩

theorem lev_triangle (a b c : List Char) : lev a c ≤ lev a b + lev b c := by
  obtain ⟨m, hm, s⟩ := script_trans_aux _ a b c _ _ (Nat.le_refl _)
    (script_of_lev a b) (script_of_lev b c)
  exact Nat.le_trans (lev_le_of_script s) hm

theorem lev_append_left_le (l a b : List Char) : lev (l ++ a) (l ++ b) ≤ lev a b := by
  induction l with
  | nil => exact Nat.le_refl _
  | cons x l ih =>
    simp only [List.cons_append]
    rw [lev_cons_same]
    exact ih

theorem lev_le_one_of_step {a b : List Char} (h : EditStep a b) : lev a b ≤ 1 := by
  cases h with
  | insert l r c =>
    have h1 := lev_append_left_le l r (c :: r)
    have h2 := lev_cons_right_le c r r
    rw [lev_self] at h2
    omega
  | delete l r c =>
    have h1 := lev_append_left_le l (c :: r) r
    have h2 := lev_cons_left_le c r r
    rw [lev_self] at h2
    omega
  | substitute l r c d =>
    have h1 := lev_append_left_le l (c :: r) (d :: r)
    have h2 : lev (c :: r) (d :: r) ≤ 1 := by
      rw [lev_cons_cons]
      have := lev_self r
      split <;> omega
    omega

theorem lev_le_of_transforms {a b : List Char} {n : Nat} (h : Transforms a b n) :
    lev a b ≤ n := by
  induction h with
  | refl a => rw [lev_self]
  | @step a b c n hs _ ih =>
    have h1 := lev_triangle a b c
    have h2 := lev_le_one_of_step hs
    omega

/-! ## The rolling cost vector computes the reference distance -/

theorem getD_set_eq (l : List Nat) (i v d : Nat) (h : i < l.length) :
    (l.set i v).getD i d = v := by
  simp [List.getD_eq_getElem?_getD, List.getElem?_set, h]

theorem getD_set_ne (l : List Nat) (i k v d : Nat) (h : i ≠ k) :
    (l.set i v).getD k d = l.getD k d := by
  simp [List.getD_eq_getElem?_getD, List.getElem?_set, h]

theorem innerLoop_spec (c1 : Char) (ra b : List Char) :
    ∀ (rest pre : List Char) (costs : List Nat) (corner : Nat),
      b = pre ++ rest →
      costs.length = b.length + 1 →
      corner = lev ra pre.reverse →
      (∀ k, k ≤ pre.length → costs.getD k 0 = lev (c1 :: ra) (b.take k).reverse) →
      (∀ k, pre.length < k → k ≤ b.length → costs.getD k 0 = lev ra (b.take k).reverse) →
      (innerLoop c1 rest pre.length costs corner).length = b.length + 1 ∧
      ∀ k, k ≤ b.length →
        (innerLoop c1 rest pre.length costs corner).getD k 0
          = lev (c1 :: ra) (b.take k).reverse := by
  intro rest
  induction rest with
  | nil =>
    intro pre costs corner hb hlen _ hlo _
    simp only [List.append_nil] at hb
    subst hb
    exact ⟨hlen, hlo⟩
  | cons c2 rest ih =>
    intro pre costs corner hb hlen hcorner hlo hhi
    have hblen : b.length = pre.length + 1 + rest.length := by
      rw [hb]; simp; omega
    have htake1 : b.take (pre.length + 1) = pre ++ [c2] := by
      rw [hb]
      have : pre ++ c2 :: rest = (pre ++ [c2]) ++ rest := by simp
      rw [this]
      exact List.take_left' (by simp)
    have htake0 : b.take pre.length = pre := by
      rw [hb]; exact List.take_left' rfl
    have hupper : costs.getD (pre.length + 1) 0 = lev ra (c2 :: pre.reverse) := by
      rw [hhi (pre.length + 1) (by omega) (by omega), htake1]; simp
    have hleft : costs.getD pre.length 0 = lev (c1 :: ra) pre.reverse := by
      rw [hlo pre.length (Nat.le_refl _), htake0]
    have hnew : (if c1 = c2 then corner
        else (if costs.getD pre.length 0 <
                (if costs.getD (pre.length + 1) 0 < corner
                  then costs.getD (pre.length + 1) 0 else corner)
              then costs.getD pre.length 0
              else (if costs.getD (pre.length + 1) 0 < corner
                  then costs.getD (pre.length + 1) 0 else corner)) + 1)
        = lev (c1 :: ra) (c2 :: pre.reverse) := by
      rw [lev_cons_cons, hupper, hleft, hcorner]
      split_ifs <;> omega
    have hstep := ih (pre ++ [c2])
      (costs.set (pre.length + 1)
        (if c1 = c2 then corner
        else (if costs.getD pre.length 0 <
                (if costs.getD (pre.length + 1) 0 < corner
                  then costs.getD (pre.length + 1) 0 else corner)
              then costs.getD pre.length 0
              else (if costs.getD (pre.length + 1) 0 < corner
                  then costs.getD (pre.length + 1) 0 else corner)) + 1))
      (costs.getD (pre.length + 1) 0)
      (by rw [hb]; simp)
      (by simpa using hlen)
      (by rw [hupper]; simp)
      (by
        intro k hk
        simp only [List.length_append, List.length_singleton] at hk
        by_cases hk1 : k = pre.length + 1
        · subst hk1
          rw [getD_set_eq _ _ _ _ (by omega), hnew, htake1]; simp
        · rw [getD_set_ne _ _ _ _ _ (fun e => hk1 e.symm)]
          exact hlo k (by omega))
      (by
        intro k hk hkb
        simp only [List.length_append, List.length_singleton] at hk
        rw [getD_set_ne _ _ _ _ _ (by omega)]
        exact hhi k (by omega) hkb)
    simp only [List.length_append, List.length_singleton] at hstep
    have hunf : innerLoop c1 (c2 :: rest) pre.length costs corner
        = innerLoop c1 rest (pre.length + 1)
            (costs.set (pre.length + 1)
              (if c1 = c2 then corner
              else (if costs.getD pre.length 0 <
                      (if costs.getD (pre.length + 1) 0 < corner
                        then costs.getD (pre.length + 1) 0 else corner)
                    then costs.getD pre.length 0
                    else (if costs.getD (pre.length + 1) 0 < corner
                        then costs.getD (pre.length + 1) 0 else corner)) + 1))
            (costs.getD (pre.length + 1) 0) := by
      simp only [innerLoop]
      split_ifs <;> rfl
    rw [hunf]
    exact hstep

theorem outerLoop_spec (b : List Char) :
    ∀ (rest ra : List Char) (costs : List Nat),
      costs.length = b.length + 1 →
      (∀ k, k ≤ b.length → costs.getD k 0 = lev ra (b.take k).reverse) →
      ∀ k, k ≤ b.length →
        (outerLoop b rest ra.length costs).getD k 0
          = lev (rest.reverse ++ ra) (b.take k).reverse := by
  intro rest
  induction rest with
  | nil =>
    intro ra costs _ hrow k hk
    simpa [outerLoop] using hrow k hk
  | cons c1 rest ih =>
    intro ra costs hlen hrow k hk
    have hin := innerLoop_spec c1 ra b b [] (costs.set 0 (ra.length + 1)) ra.length
      (by simp) (by simpa using hlen) (by simp [lev_nil_right])
      (by
        intro j hj
        have hj0 : j = 0 := by simpa using hj
        subst hj0
        rw [getD_set_eq _ _ _ _ (by omega)]
        simp [lev_nil_right])
      (by
        intro j hj hjb
        have hj0 : 0 < j := by simpa using hj
        rw [getD_set_ne _ _ _ _ _ (by omega)]
        exact hrow j hjb)
    have hstep := ih (c1 :: ra) (innerLoop c1 b 0 (costs.set 0 (ra.length + 1)) ra.length)
      hin.1 hin.2 k hk
    simp only [List.length_cons] at hstep
    simpa [outerLoop] using hstep

theorem outerLoop_last (a b : List Char) :
    (outerLoop b a 0 (List.range (b.length + 1))).getD b.length 0 = lev a b := by
  have h := outerLoop_spec b a [] (List.range (b.length + 1)) (by simp)
    (by
      intro k hk
      rw [lev_nil_left]
      simp [List.getD_eq_getElem?_getD, List.getElem?_range, Nat.lt_succ_of_le hk,
        Nat.min_eq_left hk])
    b.length (Nat.le_refl _)
  simpa [lev_reverse] using h

theorem distance_eq_toInt_lev (a b : CppString) :
    ComputeLevenshteinDistance a b = toInt (lev (a.map toupper) (b.map toupper)) := by
  unfold ComputeLevenshteinDistance
  simp only
  split_ifs with hm hn
  · rw [List.length_eq_zero.mp hm, lev_nil_left]
  · rw [List.length_eq_zero.mp hn, lev_nil_right]
  · rw [outerLoop_last]

theorem toInt_of_lt (x : Nat) (h : x < 2 ^ 31) : toInt x = (x : Int) := by
  unfold toInt
  have h1 : x % 2 ^ 32 = x := Nat.mod_eq_of_lt (by omega)
  rw [h1, if_pos h]

/-! ## Case folding -/

theorem toLower_of_not_upper (c : Char) (h : ¬ (65 ≤ c.toNat ∧ c.toNat ≤ 90)) :
    c.toLower = c := by
  unfold Char.toLower
  simp only [ge_iff_le]
  rw [if_neg h]

theorem toUpper_of_not_lower (c : Char) (h : ¬ (97 ≤ c.toNat ∧ c.toNat ≤ 122)) :
    c.toUpper = c := by
  unfold Char.toUpper
  simp only [ge_iff_le]
  rw [if_neg h]

theorem toupper_toLower (c : Char) : toupper c.toLower = toupper c := by
  by_cases h : 65 ≤ c.toNat ∧ c.toNat ≤ 90
  · have hc : c = Char.ofNat c.toNat := (Char.ofNat_toNat c).symm
    obtain ⟨h1, h2⟩ := h
    generalize c.toNat = n at hc h1 h2
    subst hc
    interval_cases n <;> decide
  · rw [toLower_of_not_upper c h]

theorem toupper_toupper (c : Char) : toupper (toupper c) = toupper c := by
  by_cases h : 97 ≤ c.toNat ∧ c.toNat ≤ 122
  · have hc : c = Char.ofNat c.toNat := (Char.ofNat_toNat c).symm
    obtain ⟨h1, h2⟩ := h
    generalize c.toNat = n at hc h1 h2
    subst hc
    interval_cases n <;> decide
  · unfold toupper
    rw [toUpper_of_not_lower c h, toUpper_of_not_lower c h]

/-! ## Collecting the scored pairs -/

theorem keywordLoop_eq (edge : GraphEdge) (message : CppString) :
    ∀ (kws : List CppString) (acc : List EdgeDist),
      keywordLoop edge message kws acc
        = acc ++ kws.map (fun k => (edge, ComputeLevenshteinDistance k message)) := by
  intro kws
  induction kws with
  | nil => intro acc; simp [keywordLoop]
  | cons k kws ih => intro acc; simp [keywordLoop, ih]

theorem mem_keywordLoop (edge : GraphEdge) (message : CppString) (kws : List CppString)
    (acc : List EdgeDist) (ed : EdgeDist) :
    ed ∈ keywordLoop edge message kws acc ↔
      ed ∈ acc ∨ ∃ k ∈ kws, ed = (edge, ComputeLevenshteinDistance k message) := by
  rw [keywordLoop_eq]
  simp only [List.mem_append, List.mem_map]
  constructor
  · rintro (h | ⟨k, hk, rfl⟩)
    · exact Or.inl h
    · exact Or.inr ⟨k, hk, rfl⟩
  · rintro (h | ⟨k, hk, rfl⟩)
    · exact Or.inl h
    · exact Or.inr ⟨k, hk, rfl⟩

theorem mem_edgeLoop (message : CppString) :
    ∀ (edges : List GraphEdge) (acc : List EdgeDist) (ed : EdgeDist),
      ed ∈ edgeLoop message edges acc ↔
        ed ∈ acc ∨ ∃ e ∈ edges, ∃ k ∈ e.keywords,
          ed = (e, ComputeLevenshteinDistance k message) := by
  intro edges
  induction edges with
  | nil => intro acc ed; simp [edgeLoop]
  | cons e edges ih =>
    intro acc ed
    simp only [edgeLoop]
    rw [ih, mem_keywordLoop]
    constructor
    · rintro ((h | ⟨k, hk, rfl⟩) | ⟨e', he', k, hk, rfl⟩)
      · exact Or.inl h
      · exact Or.inr ⟨e, List.mem_cons_self _ _, k, hk, rfl⟩
      · exact Or.inr ⟨e', List.mem_cons_of_mem _ he', k, hk, rfl⟩
    · rintro (h | ⟨e', he', k, hk, rfl⟩)
      · exact Or.inl (Or.inl h)
      · rcases List.mem_cons.mp he' with rfl | he'
        · exact Or.inl (Or.inr ⟨k, hk, rfl⟩)
        · exact Or.inr ⟨e', he', k, hk, rfl⟩

theorem mem_levDists (message : CppString) (edges : List GraphEdge) (ed : EdgeDist) :
    ed ∈ edgeLoop message edges [] ↔
      ∃ e ∈ edges, ∃ k ∈ e.keywords, ed = (e, ComputeLevenshteinDistance k message) := by
  rw [mem_edgeLoop]
  simp

theorem levDists_eq_nil (message : CppString) (edges : List GraphEdge)
    (h : ∀ e ∈ edges, e.keywords = []) : edgeLoop message edges [] = [] := by
  apply List.eq_nil_iff_forall_not_mem.mpr
  intro ed hed
  obtain ⟨e, he, k, hk, _⟩ := (mem_levDists message edges ed).mp hed
  rw [h e he] at hk
  exact absurd hk (List.not_mem_nil k)

theorem levDists_ne_nil (message : CppString) (edges : List GraphEdge)
    (h : ∃ e ∈ edges, e.keywords ≠ []) : edgeLoop message edges [] ≠ [] := by
  obtain ⟨e, he, hne⟩ := h
  obtain ⟨k, kws, hk⟩ := List.exists_cons_of_ne_nil hne
  intro hnil
  have hmem : (e, ComputeLevenshteinDistance k message) ∈ edgeLoop message edges [] :=
    (mem_levDists message edges _).mpr ⟨e, he, k, by rw [hk]; exact List.mem_cons_self _ _, rfl⟩
  rw [hnil] at hmem
  exact absurd hmem (List.not_mem_nil _)

/-! ## What the contract of `std::sort` gives -/

theorem sorted_first_minimal (sort : List EdgeDist → List EdgeDist)
    (hsort : StdSortContract sort) (l : List EdgeDist) (hl : l ≠ []) :
    ∃ ed, (sort l)[0]? = some ed ∧ ed ∈ l ∧ ∀ other ∈ l, ed.2 ≤ other.2 := by
  obtain ⟨hperm, hsorted⟩ := hsort l
  cases hs : sort l with
  | nil =>
    rw [hs] at hperm
    exact absurd hperm.symm.eq_nil hl
  | cons ed rest =>
    refine ⟨ed, by simp, ?_, ?_⟩
    · apply hperm.mem_iff.mp
      rw [hs]
      exact List.mem_cons_self _ _
    · intro other hother
      have hmem : other ∈ ed :: rest := by
        rw [← hs]
        exact hperm.mem_iff.mpr hother
      rw [hs] at hsorted
      rcases List.mem_cons.mp hmem with rfl | hrest
      · exact Int.le_refl _
      · exact Int.not_lt.mp (List.rel_of_pairwise_cons hsorted hrest)

theorem receive_eq (sort : List EdgeDist → List EdgeDist) (graph : Nat → GraphNode)
    (bot : ChatBot) (message : CppString) (p : Nat) (hcur : bot._currentNode = some p) :
    ReceiveMessageFromUser sort graph bot message =
      if (edgeLoop message (graph p).childEdges []).length > 0 then
        match (sort (edgeLoop message (graph p).childEdges []))[0]? with
        | some ed => some ed.1.childNode
        | none => none
      else some bot._rootNode := by
  unfold ReceiveMessageFromUser
  rw [hcur]

theorem receive_of_no_keyword (sort : List EdgeDist → List EdgeDist) (graph : Nat → GraphNode)
    (bot : ChatBot) (message : CppString) (p : Nat) (hcur : bot._currentNode = some p)
    (h : ∀ e ∈ (graph p).childEdges, e.keywords = []) :
    ReceiveMessageFromUser sort graph bot message = some bot._rootNode := by
  rw [receive_eq sort graph bot message p hcur, levDists_eq_nil message _ h]
  simp

theorem receive_of_first (sort : List EdgeDist → List EdgeDist) (graph : Nat → GraphNode)
    (bot : ChatBot) (message : CppString) (p : Nat) (hcur : bot._currentNode = some p)
    (ed : EdgeDist)
    (hfirst : (sort (edgeLoop message (graph p).childEdges []))[0]? = some ed)
    (hne : edgeLoop message (graph p).childEdges [] ≠ []) :
    ReceiveMessageFromUser sort graph bot message = some ed.1.childNode := by
  rw [receive_eq sort graph bot message p hcur, hfirst]
  have : (edgeLoop message (graph p).childEdges []).length > 0 := List.length_pos.mpr hne
  simp [this]

theorem receive_of_keyword (sort : List EdgeDist → List EdgeDist)
    (hsort : StdSortContract sort) (graph : Nat → GraphNode)
    (bot : ChatBot) (message : CppString) (p : Nat) (hcur : bot._currentNode = some p)
    (hkw : ∃ e ∈ (graph p).childEdges, e.keywords ≠ []) :
    ∃ e ∈ (graph p).childEdges, ∃ k ∈ e.keywords,
      (sort (edgeLoop message (graph p).childEdges []))[0]?
          = some (e, ComputeLevenshteinDistance k message) ∧
      ReceiveMessageFromUser sort graph bot message = some e.childNode ∧
      ∀ e' ∈ (graph p).childEdges, ∀ k' ∈ e'.keywords,
        ComputeLevenshteinDistance k message ≤ ComputeLevenshteinDistance k' message := by
  have hne := levDists_ne_nil message _ hkw
  obtain ⟨ed, hfirst, hmem, hmin⟩ := sorted_first_minimal sort hsort _ hne
  obtain ⟨e, he, k, hk, rfl⟩ := (mem_levDists message _ ed).mp hmem
  refine ⟨e, he, k, hk, hfirst, ?_, ?_⟩
  · exact receive_of_first sort graph bot message p hcur _ hfirst hne
  · intro e' he' k' hk'
    exact hmin (e', ComputeLevenshteinDistance k' message)
      ((mem_levDists message _ _).mpr ⟨e', he', k', hk', rfl⟩)

/-! ## An implementation that meets the contract of `std::sort` -/

theorem insertSorted_perm (bt : Bool) (x : EdgeDist) :
    ∀ l : List EdgeDist, (insertSorted bt x l).Perm (x :: l) := by
  intro l
  induction l with
  | nil => exact List.Perm.refl _
  | cons y ys ih =>
    simp only [insertSorted]
    split_ifs
    · exact List.Perm.refl _
    · exact (List.Perm.cons y ih).trans (List.Perm.swap x y ys)

theorem insertSorted_sorted (bt : Bool) (x : EdgeDist) :
    ∀ l : List EdgeDist, l.Pairwise (fun a b => ¬ b.2 < a.2) →
      (insertSorted bt x l).Pairwise (fun a b => ¬ b.2 < a.2) := by
  intro l
  induction l with
  | nil => intro _; simp [insertSorted]
  | cons y ys ih =>
    intro hl
    have hy : ∀ z ∈ ys, ¬ z.2 < y.2 := fun z hz => List.rel_of_pairwise_cons hl hz
    have hys := List.Pairwise.of_cons hl
    simp only [insertSorted]
    split_ifs with hxy
    · apply List.Pairwise.cons _ hl
      intro z hz
      have hxy' : x.2 ≤ y.2 := by
        rcases hxy with h | ⟨_, h⟩
        · exact Int.le_of_lt h
        · exact Int.le_of_eq h
      rcases List.mem_cons.mp hz with rfl | hz'
      · exact Int.not_lt.mpr hxy'
      · have := Int.not_lt.mp (hy z hz')
        exact Int.not_lt.mpr (Int.le_trans hxy' this)
    · apply List.Pairwise.cons _ (ih hys)
      intro z hz
      have hz' := (insertSorted_perm bt x ys).mem_iff.mp hz
      rcases List.mem_cons.mp hz' with rfl | hz''
      · intro hlt
        exact hxy (Or.inl hlt)
      · exact hy z hz''

theorem stableSort_contract : StdSortContract stableSort := by
  intro l
  induction l with
  | nil => exact ⟨List.Perm.refl _, List.Pairwise.nil⟩
  | cons x xs ih =>
    constructor
    · exact (insertSorted_perm true x _).trans (List.Perm.cons x ih.1)
    · exact insertSorted_sorted true x _ ih.2

theorem insertSorted_filter (x : EdgeDist) (d : Int) :
    ∀ l : List EdgeDist,
      (insertSorted true x l).filter (fun ed => decide (ed.2 = d))
        = (x :: l).filter (fun ed => decide (ed.2 = d)) := by
  intro l
  induction l with
  | nil => simp [insertSorted]
  | cons y ys ih =>
    simp only [insertSorted]
    split_ifs with hxy
    · rfl
    · have hlt : y.2 < x.2 := by
        by_contra hge
        apply hxy
        have hcases : x.2 < y.2 ∨ x.2 = y.2 := by omega
        rcases hcases with h | h
        · exact Or.inl h
        · exact Or.inr ⟨trivial, h⟩
      rw [List.filter_cons, ih]
      by_cases hx : x.2 = d
      · have hyd : ¬ y.2 = d := by omega
        simp [List.filter_cons, hx, hyd]
      · simp [List.filter_cons, hx]

theorem stableSort_keepsTies : KeepsTiesInOrder stableSort := by
  intro l d
  induction l with
  | nil => rfl
  | cons x xs ih =>
    simp only [stableSort]
    rw [insertSorted_filter, List.filter_cons, List.filter_cons, ih]

/-! ## Ties under an order-keeping sort -/

theorem find?_eq_head?_filter (p : EdgeDist → Bool) :
    ∀ l : List EdgeDist, l.find? p = (l.filter p).head? := by
  intro l
  induction l with
  | nil => rfl
  | cons x xs ih =>
    by_cases hx : p x = true
    · simp [List.find?_cons, List.filter_cons, hx]
    · simp only [Bool.not_eq_true] at hx
      simp only [List.find?_cons, List.filter_cons, hx]
      exact ih

theorem firstMinimal_of_stable (sort : List EdgeDist → List EdgeDist)
    (hsort : StdSortContract sort) (hstable : KeepsTiesInOrder sort)
    (l : List EdgeDist) (hl : l ≠ []) :
    ∃ ed, (sort l)[0]? = some ed ∧ firstMinimal l = some ed ∧ ed ∈ l ∧
      ∀ other ∈ l, ed.2 ≤ other.2 := by
  obtain ⟨ed, hfirst, hmem, hmin⟩ := sorted_first_minimal sort hsort l hl
  refine ⟨ed, hfirst, ?_, hmem, hmin⟩
  have hties := hstable l ed.2
  -- the minimal pairs of `l` are exactly its pairs with the distance of `ed`
  have hcongr : l.filter (fun e => l.all (fun other => decide (e.2 ≤ other.2)))
      = l.filter (fun e => decide (e.2 = ed.2)) := by
    apply List.filter_congr
    intro e he
    have h1 : (l.all (fun other => decide (e.2 ≤ other.2)) = true) ↔ e.2 = ed.2 := by
      rw [List.all_eq_true]
      constructor
      · intro h
        have h2 := of_decide_eq_true (h ed hmem)
        have h3 := hmin e he
        omega
      · intro h other hother
        have := hmin other hother
        exact decide_eq_true (by omega)
    by_cases h : e.2 = ed.2
    · rw [h1.mpr h]; simp [h]
    · have : ¬ (l.all (fun other => decide (e.2 ≤ other.2)) = true) := fun hh => h (h1.mp hh)
      simp only [Bool.not_eq_true] at this
      rw [this]; simp [h]
  unfold firstMinimal
  rw [find?_eq_head?_filter, hcongr, ← hties]
  cases hs : sort l with
  | nil => rw [hs] at hfirst; simp at hfirst
  | cons a rest =>
    rw [hs] at hfirst
    simp only [List.getElem?_cons_zero, Option.some.injEq] at hfirst
    subst hfirst
    simp [List.filter_cons]

/-! ## The computed distance and the conversion to `int` -/

theorem toInt_nonneg_of_lt (x : Nat) (h : x < 2 ^ 31) : 0 ≤ toInt x := by
  rw [toInt_of_lt x h]
  exact Int.ofNat_nonneg x

theorem lev_lt_of_lengths (a b : CppString) (ha : a.length < 2 ^ 31) (hb : b.length < 2 ^ 31) :
    lev (a.map toupper) (b.map toupper) < 2 ^ 31 := by
  have := lev_le_max (a.map toupper) (b.map toupper)
  simp only [List.length_map] at this
  omega

theorem distance_eq_lev (a b : CppString) (ha : a.length < 2 ^ 31) (hb : b.length < 2 ^ 31) :
    ComputeLevenshteinDistance a b = (lev (a.map toupper) (b.map toupper) : Int) := by
  rw [distance_eq_toInt_lev, toInt_of_lt _ (lev_lt_of_lengths a b ha hb)]

theorem distance_nonneg (a b : CppString) (ha : a.length < 2 ^ 31) (hb : b.length < 2 ^ 31) :
    0 ≤ ComputeLevenshteinDistance a b := by
  rw [distance_eq_lev a b ha hb]
  exact Int.ofNat_nonneg _

theorem distance_eq_zero_of_fold_eq (a b : CppString) (h : a.map toupper = b.map toupper) :
    ComputeLevenshteinDistance a b = 0 := by
  rw [distance_eq_toInt_lev, h, lev_self]
  rfl

theorem fold_eq_of_distance_eq_zero (a b : CppString) (ha : a.length < 2 ^ 31)
    (hb : b.length < 2 ^ 31) (h : ComputeLevenshteinDistance a b = 0) :
    a.map toupper = b.map toupper := by
  rw [distance_eq_lev a b ha hb] at h
  exact eq_of_lev_eq_zero _ _ (by exact_mod_cast h)

theorem distance_congr (a a' b b' : CppString) (ha : a'.map toupper = a.map toupper)
    (hb : b'.map toupper = b.map toupper) :
    ComputeLevenshteinDistance a' b' = ComputeLevenshteinDistance a b := by
  rw [distance_eq_toInt_lev, distance_eq_toInt_lev, ha, hb]

theorem toupper_toUpper (c : Char) : toupper c.toUpper = toupper c :=
  toupper_toupper c

theorem toupper_eq_of_sameLetter {c c' : Char} (h : SameLetter c c') :
    toupper c' = toupper c := by
  rcases h with h | h | h
  · rw [h]
  · rw [h, toupper_toUpper]
  · rw [h, toupper_toLower]

theorem fold_eq_of_sameLetter {a a' : CppString} (h : List.Forall₂ SameLetter a a') :
    a'.map toupper = a.map toupper := by
  induction h with
  | nil => rfl
  | cons hc _ ih => simp only [List.map_cons, ih, toupper_eq_of_sameLetter hc]

/-! ## A keyword too long for an `int` -/

theorem toInt_two_pow_31 : toInt (2 ^ 31) = -2147483648 := by
  decide

theorem distance_longKeyword_yes :
    ComputeLevenshteinDistance (List.replicate (2 ^ 31) 'a') "yes".toList = -2147483648 := by
  have hup : toupper 'a' = 'A' := by decide
  have hyes : "yes".toList.map toupper = ['Y', 'E', 'S'] := by decide
  rw [distance_eq_toInt_lev, List.map_replicate, hup, hyes, lev_of_disjoint]
  · rw [List.length_replicate]
    exact toInt_two_pow_31
  · intro x hx
    rw [List.eq_of_mem_replicate hx]
    decide
  · rw [List.length_replicate]
    simp

theorem receive_frame (sort : List EdgeDist → List EdgeDist) (graph graph' : Nat → GraphNode)
    (bot bot' : ChatBot) (message : CppString) (p p' : Nat)
    (hcur : bot._currentNode = some p) (hcur' : bot'._currentNode = some p')
    (hedges : (graph' p').childEdges = (graph p).childEdges)
    (hroot : bot'._rootNode = bot._rootNode) :
    ReceiveMessageFromUser sort graph' bot' message
      = ReceiveMessageFromUser sort graph bot message := by
  rw [receive_eq sort graph bot message p hcur, receive_eq sort graph' bot' message p' hcur',
    hedges, hroot]

theorem receive_of_exact_match (sort : List EdgeDist → List EdgeDist)
    (hsort : StdSortContract sort) (graph : Nat → GraphNode) (bot : ChatBot)
    (message : CppString) (p : Nat) (hcur : bot._currentNode = some p)
    (e : GraphEdge) (he : e ∈ (graph p).childEdges) (k : CppString) (hk : k ∈ e.keywords)
    (hmatch : k.map toupper = message.map toupper)
    (hother : ∀ e' ∈ (graph p).childEdges, e' ≠ e →
      ∀ k' ∈ e'.keywords, k'.map toupper ≠ message.map toupper)
    (hlen : ∀ e' ∈ (graph p).childEdges, ∀ k' ∈ e'.keywords, k'.length < 2 ^ 31) :
    ReceiveMessageFromUser sort graph bot message = some e.childNode := by
  have hmsg : message.length < 2 ^ 31 := by
    have h1 := congrArg List.length hmatch
    have h2 := hlen e he k hk
    simp only [List.length_map] at h1
    omega
  obtain ⟨e0, he0, k0, hk0, _, htarget, hmin⟩ :=
    receive_of_keyword sort hsort graph bot message p hcur ⟨e, he, List.ne_nil_of_mem hk⟩
  have h0 : ComputeLevenshteinDistance k0 message = 0 := by
    have hle := hmin e he k hk
    rw [distance_eq_zero_of_fold_eq k message hmatch] at hle
    have hge := distance_nonneg k0 message (hlen e0 he0 k0 hk0) hmsg
    omega
  have hfold := fold_eq_of_distance_eq_zero k0 message (hlen e0 he0 k0 hk0) hmsg h0
  have hee : e0 = e := by
    by_contra hne
    exact hother e0 he0 hne k0 hk0 hfold
  rw [htarget, hee]

/-! ## The empty string, and the size of the cost vector -/

theorem distance_nil_left (s : CppString) :
    ComputeLevenshteinDistance [] s = toInt s.length := by
  rw [distance_eq_toInt_lev, List.map_nil, lev_nil_left, List.length_map]

theorem distance_nil_right (s : CppString) :
    ComputeLevenshteinDistance s [] = toInt s.length := by
  rw [distance_eq_toInt_lev, List.map_nil, lev_nil_right, List.length_map]

theorem toInt_two_pow_32 : toInt (2 ^ 32) = 0 := by
  decide

theorem innerLoop_length (c1 : Char) :
    ∀ (rest : List Char) (j : Nat) (costs : List Nat) (corner : Nat),
      (innerLoop c1 rest j costs corner).length = costs.length := by
  intro rest
  induction rest with
  | nil => intro j costs corner; rfl
  | cons c2 rest ih =>
    intro j costs corner
    simp only [innerLoop]
    rw [ih]
    split_ifs <;> simp

theorem outerLoop_length (s2 : List Char) :
    ∀ (rest : List Char) (i : Nat) (costs : List Nat),
      (outerLoop s2 rest i costs).length = costs.length := by
  intro rest
  induction rest with
  | nil => intro i costs; rfl
  | cons c1 rest ih =>
    intro i costs
    simp only [outerLoop]
    rw [ih, innerLoop_length, List.length_set]

theorem costsVector_of_ne_nil (s1 s2 : CppString) (h1 : s1 ≠ []) (h2 : s2 ≠ []) :
    costsVector s1 s2
      = some (outerLoop (s2.map toupper) (s1.map toupper) 0 (List.range (s2.length + 1))) := by
  have hm : ¬ s1.length = 0 := fun h => h1 (List.length_eq_zero.mp h)
  have hn : ¬ s2.length = 0 := fun h => h2 (List.length_eq_zero.mp h)
  unfold costsVector
  simp only [List.length_map]
  rw [if_neg hm, if_neg hn]

theorem distance_of_ne_nil (s1 s2 : CppString) (h1 : s1 ≠ []) (h2 : s2 ≠ []) :
    ComputeLevenshteinDistance s1 s2
      = toInt ((outerLoop (s2.map toupper) (s1.map toupper) 0
          (List.range (s2.length + 1))).getD s2.length 0) := by
  have hm : ¬ s1.length = 0 := fun h => h1 (List.length_eq_zero.mp h)
  have hn : ¬ s2.length = 0 := fun h => h2 (List.length_eq_zero.mp h)
  unfold ComputeLevenshteinDistance
  simp only [List.length_map]
  rw [if_neg hm, if_neg hn]

/-! ## A strictly nearest keyword, and the special member functions -/

theorem receive_of_strict_minimum (sort : List EdgeDist → List EdgeDist)
    (hsort : StdSortContract sort) (graph : Nat → GraphNode) (bot : ChatBot)
    (message : CppString) (p : Nat) (hcur : bot._currentNode = some p)
    (e : GraphEdge) (he : e ∈ (graph p).childEdges) (k : CppString) (hk : k ∈ e.keywords)
    (hstrict : ∀ e' ∈ (graph p).childEdges, ∀ k' ∈ e'.keywords,
      e'.childNode ≠ e.childNode →
      ComputeLevenshteinDistance k message < ComputeLevenshteinDistance k' message) :
    ReceiveMessageFromUser sort graph bot message = some e.childNode := by
  obtain ⟨e0, he0, k0, hk0, _, htarget, hmin⟩ :=
    receive_of_keyword sort hsort graph bot message p hcur ⟨e, he, List.ne_nil_of_mem hk⟩
  by_cases hchild : e0.childNode = e.childNode
  · rw [htarget, hchild]
  · exfalso
    have h1 := hstrict e0 he0 k0 hk0 hchild
    have h2 := hmin e he k hk
    omega

theorem distance_eq_lev_of_fits (a b : CppString)
    (hfits : lev (a.map toupper) (b.map toupper) < 2 ^ 31 ∨
      (a.length < 2 ^ 31 ∧ b.length < 2 ^ 31)) :
    ComputeLevenshteinDistance a b = (lev (a.map toupper) (b.map toupper) : Int) := by
  have hlt : lev (a.map toupper) (b.map toupper) < 2 ^ 31 := by
    rcases hfits with h | ⟨ha, hb⟩
    · exact h
    · exact lev_lt_of_lengths a b ha hb
  rw [distance_eq_toInt_lev, toInt_of_lt _ hlt]

theorem toInt_le_self (x : Nat) (h : 0 ≤ toInt x) : toInt x ≤ (x : Int) := by
  unfold toInt at h ⊢
  have hmod : x % 2 ^ 32 ≤ x := Nat.mod_le x _
  split_ifs at h ⊢ with hlt
  · exact_mod_cast hmod
  · omega

theorem answerBound_le (len : Nat) (hpos : 0 < len)
    (h : 0 ≤ toInt ((len + 2 ^ 64 - 1) % 2 ^ 64)) :
    toInt ((len + 2 ^ 64 - 1) % 2 ^ 64) ≤ (len : Int) - 1 := by
  have h1 := toInt_le_self _ h
  have h2 : (len + 2 ^ 64 - 1) % 2 ^ 64 ≤ len - 1 := by
    have : len + 2 ^ 64 - 1 = (len - 1) + 2 ^ 64 := by omega
    rw [this, Nat.add_mod_right]
    exact Nat.mod_le _ _
  have h3 : ((len - 1 : Nat) : Int) = (len : Int) - 1 := by omega
  have h4 : (((len + 2 ^ 64 - 1) % 2 ^ 64 : Nat) : Int) ≤ ((len - 1 : Nat) : Int) := by
    exact_mod_cast h2
  omega

theorem answerBound_of_le (len : Nat) (hpos : 0 < len) (hle : len ≤ 2 ^ 31) :
    0 ≤ toInt ((len + 2 ^ 64 - 1) % 2 ^ 64) := by
  have h1 : (len + 2 ^ 64 - 1) % 2 ^ 64 = len - 1 := by
    have : len + 2 ^ 64 - 1 = (len - 1) + 2 ^ 64 := by omega
    rw [this, Nat.add_mod_right]
    exact Nat.mod_eq_of_lt (by omega)
  rw [h1]
  exact toInt_nonneg_of_lt _ (by omega)

theorem setCurrentNode_of_negative_bound (draw : Int → Int → Int) (graph : Nat → GraphNode)
    (bot : ChatBot) (sent : MessageSink) (p : Nat)
    (h : toInt (((graph p).answers.length + 2 ^ 64 - 1) % 2 ^ 64) < 0) :
    SetCurrentNode draw graph bot sent (some p) =
      { bot := { _image := bot._image, _currentNode := some p,
                 _rootNode := bot._rootNode, _chatLogic := bot._chatLogic },
        sent := sent, fault := some Fault.invalidDistribution } := by
  unfold SetCurrentNode
  simp only
  rw [if_pos h]

theorem toInt_wrapped_zero : toInt ((0 + 2 ^ 64 - 1) % 2 ^ 64) = -1 := by
  decide

theorem toInt_wrapped_crowd : toInt ((2 ^ 31 + 1 + 2 ^ 64 - 1) % 2 ^ 64) = -2147483648 := by
  decide

/-! ## The claims -/

/-- C1: whenever the result fits in an `int` (the Levenshtein distance of the upper-cased
strings is below `2 ^ 31`, as it is when both strings are shorter than that),
`ComputeLevenshteinDistance a b` is the Levenshtein distance of the upper-cased strings as
the standard recursive definition `lev` gives it; that many single-character insertions,
deletions and substitutions transform upper-cased `a` into upper-cased `b`, and no smaller
number of them does; in particular the distance of "kitten" and "sitting" is 3. -/
theorem C1_distance_is_levenshtein (a b : CppString)
    (hfits : lev (a.map toupper) (b.map toupper) < 2 ^ 31 ∨
      (a.length < 2 ^ 31 ∧ b.length < 2 ^ 31)) :
    ComputeLevenshteinDistance a b = (lev (a.map toupper) (b.map toupper) : Int) ∧
    Transforms (a.map toupper) (b.map toupper) (lev (a.map toupper) (b.map toupper)) ∧
    (∀ n, Transforms (a.map toupper) (b.map toupper) n →
      lev (a.map toupper) (b.map toupper) ≤ n) ∧
    ComputeLevenshteinDistance "kitten".toList "sitting".toList = 3 := by
  have hlt : lev (a.map toupper) (b.map toupper) < 2 ^ 31 := by
    rcases hfits with h | ⟨ha, hb⟩
    · exact h
    · exact lev_lt_of_lengths a b ha hb
  refine ⟨?_, transforms_of_script (script_of_lev _ _), fun _ h => lev_le_of_transforms h,
    by decide⟩
  rw [distance_eq_toInt_lev, toInt_of_lt _ hlt]

/-- C1, at "kitten" and "sitting": both are shorter than `2 ^ 31`, the computed distance is
the reference distance of "KITTEN" and "SITTING", and that reference distance is 3. -/
theorem C1_distance_is_levenshtein_witness :
    ("kitten".toList.length < 2 ^ 31 ∧ "sitting".toList.length < 2 ^ 31) ∧
    ComputeLevenshteinDistance "kitten".toList "sitting".toList
      = (lev ("kitten".toList.map toupper) ("sitting".toList.map toupper) : Int) ∧
    lev "KITTEN".toList "SITTING".toList = 3 :=
  ⟨⟨by decide, by decide⟩,
    (C1_distance_is_levenshtein "kitten".toList "sitting".toList
      (Or.inr ⟨by decide, by decide⟩)).1,
    by simp [lev]⟩

/-- C2: when the outgoing edges of the current node carry at least one keyword, the sorted
list starts with a pair `(e, distance k message)` where `e` is an outgoing edge, `k` one
of its keywords (so its keyword set is not empty) and no keyword of any outgoing edge is
nearer to the message; the transition target is the child node of that edge. -/
theorem C2_target_has_minimal_keyword (sort : List EdgeDist → List EdgeDist)
    (hsort : StdSortContract sort) (graph : Nat → GraphNode) (bot : ChatBot)
    (message : CppString) (p : Nat) (hcur : bot._currentNode = some p)
    (hkw : ∃ e ∈ (graph p).childEdges, e.keywords ≠ []) :
    ∃ e ∈ (graph p).childEdges, ∃ k ∈ e.keywords,
      e.keywords ≠ [] ∧
      (sort (edgeLoop message (graph p).childEdges []))[0]?
          = some (e, ComputeLevenshteinDistance k message) ∧
      ReceiveMessageFromUser sort graph bot message = some e.childNode ∧
      ∀ e' ∈ (graph p).childEdges, ∀ k' ∈ e'.keywords,
        ComputeLevenshteinDistance k message ≤ ComputeLevenshteinDistance k' message := by
  obtain ⟨e, he, k, hk, hfirst, htarget, hmin⟩ :=
    receive_of_keyword sort hsort graph bot message p hcur hkw
  exact ⟨e, he, k, hk, List.ne_nil_of_mem hk, hfirst, htarget, hmin⟩

/-- C2, at the node with the edges {"hi"} and {"hey"} and the message "hy". -/
theorem C2_target_has_minimal_keyword_witness :
    StdSortContract stableSort ∧ sampleBot._currentNode = some 0 ∧
    ∃ e ∈ (graphOf [hiEdge, heyEdge] 0).childEdges, ∃ k ∈ e.keywords,
      e.keywords ≠ [] ∧
      (stableSort (edgeLoop "hy".toList (graphOf [hiEdge, heyEdge] 0).childEdges []))[0]?
          = some (e, ComputeLevenshteinDistance k "hy".toList) ∧
      ReceiveMessageFromUser stableSort (graphOf [hiEdge, heyEdge]) sampleBot "hy".toList
          = some e.childNode ∧
      ∀ e' ∈ (graphOf [hiEdge, heyEdge] 0).childEdges, ∀ k' ∈ e'.keywords,
        ComputeLevenshteinDistance k "hy".toList ≤ ComputeLevenshteinDistance k' "hy".toList :=
  ⟨stableSort_contract, rfl,
    C2_target_has_minimal_keyword stableSort stableSort_contract (graphOf [hiEdge, heyEdge])
      sampleBot "hy".toList 0 rfl ⟨hiEdge, by decide, by decide⟩⟩

set_option maxRecDepth 100000 in
/-- C3 fails as stated: at the node with seventeen edges that all have the keyword "hi" and
the message "hy", all seventeen pairs are at distance 1, the first of them in enumeration
order belongs to the edge leading to node `1`, and with `std::sort` as GNU libstdc++
implements it the transition target is node `9`, the child of the ninth edge. -/
theorem C3_counterexample :
    (edgeLoop "hy".toList (graphOf tiedEdges 0).childEdges []).map (fun ed => ed.2)
      = List.replicate 17 1 ∧
    firstMinimal (edgeLoop "hy".toList (graphOf tiedEdges 0).childEdges [])
      = some ({ keywords := ["hi".toList], childNode := some 1 }, 1) ∧
    ReceiveMessageFromUser gnuStdSort (graphOf tiedEdges) sampleBot "hy".toList
      = some (some 9) := by
  decide

/-- C3, amended: when the outgoing edges carry at least one keyword, the selected pair is
one of the pairs of minimal distance, whatever `std::sort` does with ties; it is the first
such pair in enumeration order whenever the sort keeps pairs of equal distance in their
original order. -/
theorem C3_ties_selected_pair (sort : List EdgeDist → List EdgeDist)
    (hsort : StdSortContract sort) (graph : Nat → GraphNode) (bot : ChatBot)
    (message : CppString) (p : Nat) (hcur : bot._currentNode = some p)
    (hkw : ∃ e ∈ (graph p).childEdges, e.keywords ≠ []) :
    ∃ ed ∈ edgeLoop message (graph p).childEdges [],
      (∀ other ∈ edgeLoop message (graph p).childEdges [], ed.2 ≤ other.2) ∧
      (sort (edgeLoop message (graph p).childEdges []))[0]? = some ed ∧
      ReceiveMessageFromUser sort graph bot message = some ed.1.childNode ∧
      (KeepsTiesInOrder sort →
        firstMinimal (edgeLoop message (graph p).childEdges []) = some ed) := by
  have hne := levDists_ne_nil message _ hkw
  obtain ⟨ed, hfirst, hmem, hmin⟩ := sorted_first_minimal sort hsort _ hne
  refine ⟨ed, hmem, hmin, hfirst, ?_, ?_⟩
  · exact receive_of_first sort graph bot message p hcur ed hfirst hne
  · intro hstable
    obtain ⟨ed', hfirst', hfm, _, _⟩ := firstMinimal_of_stable sort hsort hstable _ hne
    rw [hfirst] at hfirst'
    rw [hfm, Option.some.inj hfirst']

/-- C3, amended, at the node with the edges {"hi"} and {"hey"}, the message "hy" and the
insertion sort, which meets the contract and keeps ties in order: the first minimal pair is
selected. -/
theorem C3_ties_selected_pair_witness :
    StdSortContract stableSort ∧ KeepsTiesInOrder stableSort ∧
    sampleBot._currentNode = some 0 ∧
    ∃ ed ∈ edgeLoop "hy".toList (graphOf [hiEdge, heyEdge] 0).childEdges [],
      (∀ other ∈ edgeLoop "hy".toList (graphOf [hiEdge, heyEdge] 0).childEdges [],
        ed.2 ≤ other.2) ∧
      (stableSort (edgeLoop "hy".toList (graphOf [hiEdge, heyEdge] 0).childEdges []))[0]?
        = some ed ∧
      ReceiveMessageFromUser stableSort (graphOf [hiEdge, heyEdge]) sampleBot "hy".toList
        = some ed.1.childNode ∧
      firstMinimal (edgeLoop "hy".toList (graphOf [hiEdge, heyEdge] 0).childEdges [])
        = some ed :=
  ⟨stableSort_contract, stableSort_keepsTies, rfl,
    (C3_ties_selected_pair stableSort stableSort_contract (graphOf [hiEdge, heyEdge])
      sampleBot "hy".toList 0 rfl ⟨hiEdge, by decide, by decide⟩).imp
      (fun _ h => ⟨h.1, h.2.1, h.2.2.1, h.2.2.2.1, h.2.2.2.2 stableSort_keepsTies⟩)⟩

/-- C4: if the current node has no outgoing edges, or every outgoing edge has an empty
keyword set, the transition target is `rootNode`, whatever the message (and whatever
`std::sort` would do). -/
theorem C4_no_keyword_goes_to_root (sort : List EdgeDist → List EdgeDist)
    (graph : Nat → GraphNode) (bot : ChatBot) (message : CppString) (p : Nat)
    (hcur : bot._currentNode = some p)
    (h : (graph p).childEdges = [] ∨ ∀ e ∈ (graph p).childEdges, e.keywords = []) :
    ReceiveMessageFromUser sort graph bot message = some bot._rootNode := by
  apply receive_of_no_keyword sort graph bot message p hcur
  rcases h with h | h
  · intro e he
    rw [h] at he
    exact absurd he (List.not_mem_nil e)
  · exact h

/-- C4, at a node without outgoing edges and the empty message. -/
theorem C4_no_keyword_goes_to_root_witness :
    sampleBot._currentNode = some 0 ∧ (graphOf [] 0).childEdges = [] ∧
    ReceiveMessageFromUser stableSort (graphOf []) sampleBot [] = some sampleBot._rootNode :=
  ⟨rfl, rfl,
    C4_no_keyword_goes_to_root stableSort (graphOf []) sampleBot [] 0 rfl (Or.inl rfl)⟩

/-- C5 fails as stated: at a node with `2 ^ 31 + 1` answers the bound `answers.size() - 1`
narrowed to `int` is `-2147483648`, the distribution is outside its precondition, and the
call ends without any message sent. -/
theorem C5_counterexample :
    (crowdedGraph 0).answers ≠ [] ∧
    toInt (((crowdedGraph 0).answers.length + 2 ^ 64 - 1) % 2 ^ 64) = -2147483648 ∧
    SetCurrentNode drawLowest crowdedGraph sampleBot [] (some 0) =
      { bot := { _image := none, _currentNode := some 0,
                 _rootNode := some 9, _chatLogic := some 0 },
        sent := [], fault := some Fault.invalidDistribution } := by
  have hlen : (crowdedGraph 0).answers.length = 2 ^ 31 + 1 := by
    unfold crowdedGraph
    simp only [List.length_replicate]
  have hbound : toInt (((crowdedGraph 0).answers.length + 2 ^ 64 - 1) % 2 ^ 64)
      = -2147483648 := by
    rw [hlen]
    exact toInt_wrapped_crowd
  refine ⟨?_, hbound, ?_⟩
  · intro h
    rw [h] at hlen
    exact absurd hlen (by decide)
  · exact setCurrentNode_of_negative_bound drawLowest crowdedGraph sampleBot [] 0
      (by rw [hbound]; decide)

/-- C5, amended: for a node with a non-empty answer list whose size minus one, narrowed to
`int`, is not negative (as it is for every list of at most `2 ^ 31` answers), a bot with a
chat logic to send to, and every draw the distribution may yield, `SetCurrentNode` ends
without failure, has set `_currentNode` to the node and left the other three handles alone,
and has sent exactly one further message, which is one of the node's answers. -/
theorem C5_sends_one_answer (draw : Int → Int → Int) (hdraw : UniformIntContract draw)
    (graph : Nat → GraphNode) (bot : ChatBot) (sent : MessageSink) (p c : Nat)
    (hans : (graph p).answers ≠ []) (hsink : bot._chatLogic = some c)
    (hbound : 0 ≤ toInt (((graph p).answers.length + 2 ^ 64 - 1) % 2 ^ 64) ∨
      (graph p).answers.length ≤ 2 ^ 31) :
    ∃ answer ∈ (graph p).answers,
      SetCurrentNode draw graph bot sent (some p) =
        { bot := { _image := bot._image, _currentNode := some p,
                   _rootNode := bot._rootNode, _chatLogic := bot._chatLogic },
          sent := sent ++ [answer], fault := none } := by
  have hlen : 0 < (graph p).answers.length := List.length_pos.mpr hans
  have hnonneg : 0 ≤ toInt (((graph p).answers.length + 2 ^ 64 - 1) % 2 ^ 64) := by
    rcases hbound with h | h
    · exact h
    · exact answerBound_of_le _ hlen h
  have hle := answerBound_le _ hlen hnonneg
  obtain ⟨hlo, hhi⟩ :=
    hdraw 0 (toInt (((graph p).answers.length + 2 ^ 64 - 1) % 2 ^ 64)) hnonneg
  have hidx : (draw 0 (toInt (((graph p).answers.length + 2 ^ 64 - 1) % 2 ^ 64))).toNat
      < (graph p).answers.length := by omega
  refine ⟨(graph p).answers[(draw 0
      (toInt (((graph p).answers.length + 2 ^ 64 - 1) % 2 ^ 64))).toNat],
    List.getElem_mem _, ?_⟩
  unfold SetCurrentNode SendMessageToUser
  simp only [hsink]
  rw [if_neg (by omega), if_neg (by omega), List.getElem?_eq_getElem hidx]

/-- C5, amended, at the node with the answers "A" and "B" and the generator that always
draws the lower bound: exactly one message is sent and it is "A" or "B". -/
theorem C5_sends_one_answer_witness :
    UniformIntContract drawLowest ∧ (graphOf [] 0).answers ≠ [] ∧
    sampleBot._chatLogic = some 0 ∧ (graphOf [] 0).answers.length ≤ 2 ^ 31 ∧
    ∃ answer ∈ ["A".toList, "B".toList],
      SetCurrentNode drawLowest (graphOf []) sampleBot [] (some 0) =
        { bot := { _image := none, _currentNode := some 0,
                   _rootNode := some 9, _chatLogic := some 0 },
          sent := [] ++ [answer], fault := none } :=
  ⟨fun _ _ h => ⟨Int.le_refl _, h⟩, by decide, rfl, by decide,
    C5_sends_one_answer drawLowest (fun _ _ h => ⟨Int.le_refl _, h⟩) (graphOf []) sampleBot []
      0 0 (by decide) rfl (Or.inr (by decide))⟩

/-- C6 fails as stated: for the node whose only edge has the keyword "abc" and the message
"xyz", the keyword is at the maximal distance 3 (no character in common), yet the
transition target is the child of that edge and not `rootNode`. -/
theorem C6_counterexample :
    ComputeLevenshteinDistance "abc".toList "xyz".toList = 3 ∧
    ReceiveMessageFromUser stableSort (graphOf [abcEdge]) sampleBot "xyz".toList
      = some abcEdge.childNode ∧
    abcEdge.childNode ≠ sampleBot._rootNode := by
  decide

/-- C6, amended: `ReceiveMessageFromUser` falls back to `rootNode` when the outgoing edges
of the current node carry no keyword at all; as soon as they carry one, however far every
keyword is from the message, the target is the child node of an outgoing edge that holds a
keyword of minimal distance. -/
theorem C6_fallback_only_without_keyword (sort : List EdgeDist → List EdgeDist)
    (hsort : StdSortContract sort) (graph : Nat → GraphNode) (bot : ChatBot)
    (message : CppString) (p : Nat) (hcur : bot._currentNode = some p) :
    ((∀ e ∈ (graph p).childEdges, e.keywords = []) →
      ReceiveMessageFromUser sort graph bot message = some bot._rootNode) ∧
    ((∃ e ∈ (graph p).childEdges, e.keywords ≠ []) →
      ∃ e ∈ (graph p).childEdges, ∃ k ∈ e.keywords,
        ReceiveMessageFromUser sort graph bot message = some e.childNode ∧
        ∀ e' ∈ (graph p).childEdges, ∀ k' ∈ e'.keywords,
          ComputeLevenshteinDistance k message ≤ ComputeLevenshteinDistance k' message) := by
  constructor
  · exact receive_of_no_keyword sort graph bot message p hcur
  · intro hkw
    obtain ⟨e, he, k, hk, _, htarget, hmin⟩ :=
      receive_of_keyword sort hsort graph bot message p hcur hkw
    exact ⟨e, he, k, hk, htarget, hmin⟩

/-- C6, amended, at the node whose only edge has the keyword "abc" and the message
"xyz": the target is the child of an edge with a keyword of minimal distance. -/
theorem C6_fallback_only_without_keyword_witness :
    StdSortContract stableSort ∧ sampleBot._currentNode = some 0 ∧
    (∃ e ∈ (graphOf [abcEdge] 0).childEdges, e.keywords ≠ []) ∧
    ∃ e ∈ (graphOf [abcEdge] 0).childEdges, ∃ k ∈ e.keywords,
      ReceiveMessageFromUser stableSort (graphOf [abcEdge]) sampleBot "xyz".toList
        = some e.childNode ∧
      ∀ e' ∈ (graphOf [abcEdge] 0).childEdges, ∀ k' ∈ e'.keywords,
        ComputeLevenshteinDistance k "xyz".toList
          ≤ ComputeLevenshteinDistance k' "xyz".toList :=
  ⟨stableSort_contract, rfl, ⟨abcEdge, by decide, by decide⟩,
    (C6_fallback_only_without_keyword stableSort stableSort_contract (graphOf [abcEdge])
      sampleBot "xyz".toList 0 rfl).2 ⟨abcEdge, by decide, by decide⟩⟩

/-- C7 fails as stated: the distance of "hey" and "hy" is 1 (delete the "e"), not 2, so the
two edges tie; with the "hey" edge first and a sort that keeps ties in order, the
transition target is the child of the "hey" edge. -/
theorem C7_counterexample :
    ComputeLevenshteinDistance "hey".toList "hy".toList = 1 ∧
    ReceiveMessageFromUser stableSort (graphOf [heyEdge, hiEdge]) sampleBot "hy".toList
      = some heyEdge.childNode ∧
    heyEdge.childNode ≠ hiEdge.childNode := by
  decide

/-- C7, amended: the distances of "hi" and of "hey" to "hy" are both 1; from a node whose
two outgoing edges have the keyword sets {"hi"} and {"hey"}, in either order,
`ReceiveMessageFromUser` with "hy" chooses the child of one of the two edges, and it is
the child of the first edge whenever the sort keeps ties in order. -/
theorem C7_hi_hey_tie (sort : List EdgeDist → List EdgeDist)
    (hsort : StdSortContract sort) (graph : Nat → GraphNode) (bot : ChatBot) (p : Nat)
    (hcur : bot._currentNode = some p) (first second : GraphEdge)
    (hedges : (graph p).childEdges = [first, second])
    (hkeys : (first.keywords = ["hi".toList] ∧ second.keywords = ["hey".toList]) ∨
      (first.keywords = ["hey".toList] ∧ second.keywords = ["hi".toList])) :
    ComputeLevenshteinDistance "hi".toList "hy".toList = 1 ∧
    ComputeLevenshteinDistance "hey".toList "hy".toList = 1 ∧
    (ReceiveMessageFromUser sort graph bot "hy".toList = some first.childNode ∨
      ReceiveMessageFromUser sort graph bot "hy".toList = some second.childNode) ∧
    (KeepsTiesInOrder sort →
      ReceiveMessageFromUser sort graph bot "hy".toList = some first.childNode) := by
  have hhi : ComputeLevenshteinDistance "hi".toList "hy".toList = 1 := by decide
  have hhey : ComputeLevenshteinDistance "hey".toList "hy".toList = 1 := by decide
  have hlev : edgeLoop "hy".toList (graph p).childEdges [] = [(first, 1), (second, 1)] := by
    rw [hedges]
    rcases hkeys with ⟨h1, h2⟩ | ⟨h1, h2⟩ <;>
      simp only [edgeLoop, keywordLoop, h1, h2, hhi, hhey, List.nil_append,
        List.cons_append]
  have hne : edgeLoop "hy".toList (graph p).childEdges [] ≠ [] := by
    rw [hlev]; exact List.cons_ne_nil _ _
  refine ⟨hhi, hhey, ?_, ?_⟩
  · obtain ⟨ed, hfirst, hmem, _⟩ := sorted_first_minimal sort hsort _ hne
    have htarget := receive_of_first sort graph bot "hy".toList p hcur ed hfirst hne
    rw [hlev] at hmem
    rcases List.mem_cons.mp hmem with rfl | hmem
    · exact Or.inl htarget
    · rcases List.mem_cons.mp hmem with rfl | hmem
      · exact Or.inr htarget
      · exact absurd hmem (List.not_mem_nil _)
  · intro hstable
    obtain ⟨ed, hfirst, hfm, _, _⟩ := firstMinimal_of_stable sort hsort hstable _ hne
    have htarget := receive_of_first sort graph bot "hy".toList p hcur ed hfirst hne
    rw [hlev] at hfm
    have : ed = (first, 1) := by
      simp [firstMinimal] at hfm
      exact hfm.symm
    rw [htarget, this]

/-- C7, amended, at the sample node with the "hey" edge first and the insertion sort,
which meets the contract and keeps ties in order: the child of the "hey" edge is chosen. -/
theorem C7_hi_hey_tie_witness :
    StdSortContract stableSort ∧ KeepsTiesInOrder stableSort ∧
    sampleBot._currentNode = some 0 ∧
    (graphOf [heyEdge, hiEdge] 0).childEdges = [heyEdge, hiEdge] ∧
    ReceiveMessageFromUser stableSort (graphOf [heyEdge, hiEdge]) sampleBot "hy".toList
      = some heyEdge.childNode :=
  ⟨stableSort_contract, stableSort_keepsTies, rfl, rfl,
    (C7_hi_hey_tie stableSort stableSort_contract (graphOf [heyEdge, hiEdge]) sampleBot 0 rfl
      heyEdge hiEdge rfl (Or.inr ⟨rfl, rfl⟩)).2.2.2 stableSort_keepsTies⟩

/-- C8 fails as stated: at the node with the edges {"yes"} and {a keyword of `2 ^ 31`
letters "a"} and the message "yes", the message equals the keyword of the first edge and
no keyword of the other edge up to case; the long keyword is at distance `2 ^ 31`, which
the conversion to `int` turns into `-2147483648`, less than the 0 of the exact match, and
the transition target is the child of the edge with the long keyword. -/
theorem C8_counterexample :
    ComputeLevenshteinDistance "yes".toList "yes".toList = 0 ∧
    (List.replicate (2 ^ 31) 'a').map toupper ≠ "yes".toList.map toupper ∧
    ComputeLevenshteinDistance (List.replicate (2 ^ 31) 'a') "yes".toList = -2147483648 ∧
    ReceiveMessageFromUser stableSort (graphOf [yesEdge, longEdge]) sampleBot "yes".toList
      = some longEdge.childNode ∧
    longEdge.childNode ≠ yesEdge.childNode := by
  refine ⟨by decide, ?_, distance_longKeyword_yes, ?_, by decide⟩
  · intro h
    have hlen := congrArg List.length h
    rw [List.length_map, List.length_replicate] at hlen
    simp at hlen
  · have hedges : (graphOf [yesEdge, longEdge] 0).childEdges = [yesEdge, longEdge] := rfl
    obtain ⟨e, he, k, hk, _, htarget, hmin⟩ :=
      receive_of_keyword stableSort stableSort_contract (graphOf [yesEdge, longEdge])
        sampleBot "yes".toList 0 rfl
        ⟨yesEdge, by rw [hedges]; exact List.mem_cons_self _ _, List.cons_ne_nil _ _⟩
    rw [hedges] at he hmin
    rcases List.mem_cons.mp he with rfl | he
    · exfalso
      have hkeq : k = "yes".toList := by
        have hk' : k ∈ ["yes".toList] := hk
        exact List.mem_singleton.mp hk'
      have hle := hmin longEdge (List.mem_cons_of_mem _ (List.mem_cons_self _ _))
        (List.replicate (2 ^ 31) 'a') (List.mem_cons_self _ _)
      rw [hkeq, distance_longKeyword_yes] at hle
      have h0 : ComputeLevenshteinDistance "yes".toList "yes".toList = 0 := by decide
      rw [h0] at hle
      omega
    · rcases List.mem_cons.mp he with rfl | he
      · exact htarget
      · exact absurd he (List.not_mem_nil _)

/-- C8, amended: provided every keyword of the outgoing edges is shorter than `2 ^ 31`
characters, if the message equals a keyword of an outgoing edge `e` up to letter case and
no keyword of any other outgoing edge does, the transition target is the child node of
`e`; and in any case the target depends only on the outgoing edges of the current node,
the message and `rootNode`, so that repeating the call from the same current node gives
the same target. -/
theorem C8_exact_match_selected (sort : List EdgeDist → List EdgeDist)
    (hsort : StdSortContract sort) (graph : Nat → GraphNode) (bot : ChatBot)
    (message : CppString) (p : Nat) (hcur : bot._currentNode = some p) :
    (∀ e ∈ (graph p).childEdges, ∀ k ∈ e.keywords,
      k.map toupper = message.map toupper →
      (∀ e' ∈ (graph p).childEdges, e' ≠ e →
        ∀ k' ∈ e'.keywords, k'.map toupper ≠ message.map toupper) →
      (∀ e' ∈ (graph p).childEdges, ∀ k' ∈ e'.keywords, k'.length < 2 ^ 31) →
      ReceiveMessageFromUser sort graph bot message = some e.childNode) ∧
    (∀ (graph' : Nat → GraphNode) (bot' : ChatBot) (p' : Nat),
      bot'._currentNode = some p' →
      (graph' p').childEdges = (graph p).childEdges →
      bot'._rootNode = bot._rootNode →
      ReceiveMessageFromUser sort graph' bot' message
        = ReceiveMessageFromUser sort graph bot message) :=
  ⟨fun e he k hk hmatch hother hlen =>
      receive_of_exact_match sort hsort graph bot message p hcur e he k hk hmatch hother hlen,
    fun graph' bot' p' hcur' hedges hroot =>
      receive_frame sort graph graph' bot bot' message p p' hcur hcur' hedges hroot⟩

/-- C8, amended, at the node whose only outgoing edge has the keyword "yes" and the
message "yes": the target is the child of that edge. -/
theorem C8_exact_match_selected_witness :
    StdSortContract stableSort ∧ sampleBot._currentNode = some 0 ∧
    ReceiveMessageFromUser stableSort (graphOf [yesEdge]) sampleBot "yes".toList
      = some yesEdge.childNode :=
  ⟨stableSort_contract, rfl,
    (C8_exact_match_selected stableSort stableSort_contract (graphOf [yesEdge]) sampleBot
      "yes".toList 0 rfl).1 yesEdge (List.mem_cons_self _ _) "yes".toList
      (List.mem_cons_self _ _) rfl
      (fun e' he' hne => absurd (List.mem_singleton.mp he') hne)
      (fun e' he' k' hk' => by
        have he : e' = yesEdge := List.mem_singleton.mp he'
        subst he
        have hk : k' = "yes".toList := List.mem_singleton.mp hk'
        subst hk
        decide)⟩

/-- C9: the distance is symmetric in its two arguments. -/
theorem C9_distance_symmetric (a b : CppString) :
    ComputeLevenshteinDistance a b = ComputeLevenshteinDistance b a := by
  rw [distance_eq_toInt_lev, distance_eq_toInt_lev, lev_comm]

/-- C10: the distance does not depend on the case of ASCII letters: replacing any
characters of either argument by the same letter in the other case leaves the result
unchanged, so the distance of `a` and `b` is that of the upper-cased and that of the
lower-cased strings; in particular the distance of "HELLO" and "hello" is 0. -/
theorem C10_distance_case_insensitive (a b : CppString) :
    (∀ a' b' : CppString, List.Forall₂ SameLetter a a' → List.Forall₂ SameLetter b b' →
      ComputeLevenshteinDistance a' b' = ComputeLevenshteinDistance a b) ∧
    ComputeLevenshteinDistance a b
      = ComputeLevenshteinDistance (a.map Char.toUpper) (b.map Char.toUpper) ∧
    ComputeLevenshteinDistance a b
      = ComputeLevenshteinDistance (a.map Char.toLower) (b.map Char.toLower) ∧
    ComputeLevenshteinDistance "HELLO".toList "hello".toList = 0 := by
  refine ⟨?_, ?_, ?_, by decide⟩
  · intro a' b' ha hb
    exact distance_congr a a' b b' (fold_eq_of_sameLetter ha) (fold_eq_of_sameLetter hb)
  · apply distance_congr <;> simp [List.map_map, Function.comp_def, toupper_toUpper]
  · apply distance_congr <;> simp [List.map_map, Function.comp_def, toupper_toLower]

/-- C10, at "Hi"/"hI" and "x"/"X": changing the case of letters leaves the distance
unchanged. -/
theorem C10_distance_case_insensitive_witness :
    List.Forall₂ SameLetter "Hi".toList "hI".toList ∧
    List.Forall₂ SameLetter "x".toList "X".toList ∧
    ComputeLevenshteinDistance "hI".toList "X".toList
      = ComputeLevenshteinDistance "Hi".toList "x".toList :=
  have h1 : List.Forall₂ SameLetter "Hi".toList "hI".toList :=
    List.Forall₂.cons (Or.inr (Or.inr (by decide)))
      (List.Forall₂.cons (Or.inr (Or.inl (by decide))) List.Forall₂.nil)
  have h2 : List.Forall₂ SameLetter "x".toList "X".toList :=
    List.Forall₂.cons (Or.inr (Or.inl (by decide))) List.Forall₂.nil
  ⟨h1, h2, (C10_distance_case_insensitive "Hi".toList "x".toList).1 _ _ h1 h2⟩

/-- C11 fails as stated: for the string of `2 ^ 31` letters "a" the distance to and from the
empty string is the length narrowed to `int`, `-2147483648`, and not the length
`2147483648`. -/
theorem C11_counterexample :
    ComputeLevenshteinDistance [] (List.replicate (2 ^ 31) 'a') = -2147483648 ∧
    ComputeLevenshteinDistance (List.replicate (2 ^ 31) 'a') [] = -2147483648 ∧
    ((List.replicate (2 ^ 31) 'a').length : Int) = 2147483648 := by
  refine ⟨?_, ?_, ?_⟩
  · rw [distance_nil_left, List.length_replicate]
    exact toInt_two_pow_31
  · rw [distance_nil_right, List.length_replicate]
    exact toInt_two_pow_31
  · rw [List.length_replicate]
    rfl

/-- C11, amended: for every string `s` shorter than `2 ^ 31` characters the distance of the
empty string and `s`, in either order, is the length of `s`; in particular the distance of
"" and "abc" is 3 and that of "" and "" is 0. -/
theorem C11_distance_to_empty (s : CppString) (h : s.length < 2 ^ 31) :
    ComputeLevenshteinDistance [] s = (s.length : Int) ∧
    ComputeLevenshteinDistance s [] = (s.length : Int) ∧
    ComputeLevenshteinDistance "".toList "abc".toList = 3 ∧
    ComputeLevenshteinDistance "".toList "".toList = 0 := by
  refine ⟨?_, ?_, by decide, by decide⟩
  · rw [distance_nil_left, toInt_of_lt _ h]
  · rw [distance_nil_right, toInt_of_lt _ h]

/-- C11, amended, at "abc". -/
theorem C11_distance_to_empty_witness :
    "abc".toList.length < 2 ^ 31 ∧
    ComputeLevenshteinDistance [] "abc".toList = ("abc".toList.length : Int) ∧
    ComputeLevenshteinDistance "abc".toList [] = ("abc".toList.length : Int) :=
  ⟨by decide, (C11_distance_to_empty "abc".toList (by decide)).1,
    (C11_distance_to_empty "abc".toList (by decide)).2.1⟩

/-- C12: the distance of every string to itself is 0. -/
theorem C12_distance_self (s : CppString) : ComputeLevenshteinDistance s s = 0 :=
  distance_eq_zero_of_fold_eq s s rfl

/-- C13 fails on the code: for a node without answers the bound `answers.size() - 1`
narrowed to `int` is `-1`, so the distribution `dis(0, -1)` is outside its precondition and
the call ends there, whatever the generator and the bot, after `_currentNode` has been set:
the checked lookup `answers.at` is never reached and raises nothing.  No message is
sent. -/
theorem C13_empty_answers_undefined (draw : Int → Int → Int) (bot : ChatBot)
    (sent : MessageSink) (p : Nat) :
    (silentGraph p).answers = [] ∧
    SetCurrentNode draw silentGraph bot sent (some p) =
      { bot := { _image := bot._image, _currentNode := some p,
                 _rootNode := bot._rootNode, _chatLogic := bot._chatLogic },
        sent := sent, fault := some Fault.invalidDistribution } ∧
    (SetCurrentNode draw silentGraph bot sent (some p)).fault ≠ some Fault.outOfRange := by
  have h := setCurrentNode_of_negative_bound draw silentGraph bot sent p
    (by
      have : (silentGraph p).answers.length = 0 := rfl
      rw [this, toInt_wrapped_zero]
      decide)
  refine ⟨rfl, h, ?_⟩
  rw [h]
  exact fun hfault => Fault.noConfusion (Option.some.inj hfault)

/-- C14 fails on the code: at the sample memory the bot at address `0` refers to the current
node `10`, the root node `11` and the chat logic `12`, which chatbot.h marks as not owned;
copy assignment and move assignment from the bot at address `1` destroy all three, after
the image `13`, while the destructor destroys the image only. -/
theorem C14_assignment_deletes_unowned :
    (sampleMemory.bots 0)._currentNode = some 10 ∧
    (sampleMemory.bots 0)._rootNode = some 11 ∧
    (sampleMemory.bots 0)._chatLogic = some 12 ∧
    (CopyAssignment sampleMemory 0 1).toOption.map (fun m => m.deleted)
      = some [13, 10, 11, 12] ∧
    (MoveAssignment sampleMemory 0 1).deleted = [13, 10, 11, 12] ∧
    (Destructor sampleMemory 0).deleted = [13] := by
  decide

/-- C15 fails as stated: for "a" (length 1) and "abc" (length 3) the cost vector has 4
entries, more than `min 1 3 + 1 = 2`. -/
theorem C15_counterexample :
    (costsVector "a".toList "abc".toList).map List.length = some 4 ∧
    ¬ (4 ≤ min "a".toList.length "abc".toList.length + 1) := by
  decide

/-- C15, amended: for non-empty strings the single cost vector has `n + 1` entries, `n` the
length of the second string, from its allocation to the moment the result is read from its
last entry; that is within `min m n + 1` exactly when the second string is not the longer
one.  When one of the strings is empty no vector is allocated. -/
theorem C15_cost_vector_size (s1 s2 : CppString) :
    (s1 ≠ [] → s2 ≠ [] →
      ∃ costs, costsVector s1 s2 = some costs ∧
        costs.length = s2.length + 1 ∧
        ComputeLevenshteinDistance s1 s2 = toInt (costs.getD s2.length 0) ∧
        (costs.length ≤ min s1.length s2.length + 1 ↔ s2.length ≤ s1.length)) ∧
    ((s1 = [] ∨ s2 = []) → costsVector s1 s2 = none) := by
  constructor
  · intro h1 h2
    refine ⟨_, costsVector_of_ne_nil s1 s2 h1 h2, ?_, distance_of_ne_nil s1 s2 h1 h2, ?_⟩
    · rw [outerLoop_length, List.length_range]
    · rw [outerLoop_length, List.length_range]
      omega
  · intro h
    unfold costsVector
    rcases h with h | h
    · rw [h]; rfl
    · rw [h]
      simp

/-- C15, amended, at "a" and "abc": the vector has 4 entries. -/
theorem C15_cost_vector_size_witness :
    "a".toList ≠ [] ∧ "abc".toList ≠ [] ∧
    ∃ costs, costsVector "a".toList "abc".toList = some costs ∧
      costs.length = "abc".toList.length + 1 ∧
      ComputeLevenshteinDistance "a".toList "abc".toList
        = toInt (costs.getD "abc".toList.length 0) ∧
      (costs.length ≤ min "a".toList.length "abc".toList.length + 1
        ↔ "abc".toList.length ≤ "a".toList.length) :=
  ⟨by decide, by decide,
    (C15_cost_vector_size "a".toList "abc".toList).1 (by decide) (by decide)⟩

/-- C17 fails on the code: a bot built at address `1` by the constructor without memory
allocation has a null image handle, and both copying it into a new object at address `2`
and copy-assigning it to the bot at address `0` end in the dereference of that null
handle.  (From the sample bot at address `1`, whose image is `14`, the copy at address `2`
gets the new image `100` with the content of `14` and the three other handles of the
source, which keeps its own.) -/
theorem C17_copy_of_null_image_fails :
    ((DefaultConstructor sampleMemory 1).bots 1)._image = none ∧
    CopyConstructor (DefaultConstructor sampleMemory 1) 2 1
      = Except.error Fault.nullDereference ∧
    CopyAssignment (DefaultConstructor sampleMemory 1) 0 1
      = Except.error Fault.nullDereference ∧
    (CopyConstructor sampleMemory 2 1).toOption.map
        (fun m => (m.bots 2, m.bots 1, m.bitmap 100, m.bitmap 14))
      = some
          ({ _image := some 100, _currentNode := some 20, _rootNode := some 11,
             _chatLogic := some 12 },
           { _image := some 14, _currentNode := some 20, _rootNode := some 11,
             _chatLogic := some 12 },
           14, 14) :=
  ⟨rfl, rfl, rfl, by decide⟩

/-- C18 fails as stated: at the node with the edges {"yes"} and {a keyword of `2 ^ 31`
letters "a"} and the empty message, the long keyword does not get its length as score but
`-2147483648`, and the transition target is the child of its edge although "yes" is the
shortest keyword. -/
theorem C18_counterexample :
    ComputeLevenshteinDistance (List.replicate (2 ^ 31) 'a') [] = -2147483648 ∧
    ((List.replicate (2 ^ 31) 'a').length : Int) = 2147483648 ∧
    ReceiveMessageFromUser stableSort (graphOf [yesEdge, longEdge]) sampleBot []
      = some longEdge.childNode ∧
    longEdge.childNode ≠ yesEdge.childNode ∧
    "yes".toList.length < (List.replicate (2 ^ 31) 'a').length := by
  have hlong : ComputeLevenshteinDistance (List.replicate (2 ^ 31) 'a') [] = -2147483648 := by
    rw [distance_nil_right, List.length_replicate]
    exact toInt_two_pow_31
  refine ⟨hlong, by rw [List.length_replicate]; rfl, ?_, by decide, ?_⟩
  · have hedges : (graphOf [yesEdge, longEdge] 0).childEdges = [yesEdge, longEdge] := rfl
    apply receive_of_strict_minimum stableSort stableSort_contract
      (graphOf [yesEdge, longEdge]) sampleBot [] 0 rfl longEdge
      (by rw [hedges]; exact List.mem_cons_of_mem _ (List.mem_cons_self _ _))
      (List.replicate (2 ^ 31) 'a') (List.mem_cons_self _ _)
    intro e' he' k' hk' hchild
    rw [hedges] at he'
    rcases List.mem_cons.mp he' with rfl | he'
    · have hkeq : k' = "yes".toList := List.mem_singleton.mp hk'
      rw [hkeq, hlong]
      decide
    · have hee : e' = longEdge := List.mem_singleton.mp he'
      exact absurd (by rw [hee]) hchild
  · rw [List.length_replicate]
    decide

/-- C18, amended: provided every keyword of the outgoing edges is shorter than `2 ^ 31`
characters, the empty message gives every keyword its length as score, raises no error,
and, when there is at least one keyword, the transition target is the child of an edge
that holds a keyword of minimum length among all keywords of all outgoing edges. -/
theorem C18_empty_message (sort : List EdgeDist → List EdgeDist)
    (hsort : StdSortContract sort) (graph : Nat → GraphNode) (bot : ChatBot) (p : Nat)
    (hcur : bot._currentNode = some p)
    (hkw : ∃ e ∈ (graph p).childEdges, e.keywords ≠ [])
    (hlen : ∀ e ∈ (graph p).childEdges, ∀ k ∈ e.keywords, k.length < 2 ^ 31) :
    (∀ e ∈ (graph p).childEdges, ∀ k ∈ e.keywords,
      ComputeLevenshteinDistance k [] = (k.length : Int) ∧
      (e, (k.length : Int)) ∈ edgeLoop [] (graph p).childEdges []) ∧
    ∃ e ∈ (graph p).childEdges, ∃ k ∈ e.keywords,
      ReceiveMessageFromUser sort graph bot [] = some e.childNode ∧
      ∀ e' ∈ (graph p).childEdges, ∀ k' ∈ e'.keywords, k.length ≤ k'.length := by
  have hscore : ∀ e ∈ (graph p).childEdges, ∀ k ∈ e.keywords,
      ComputeLevenshteinDistance k [] = (k.length : Int) := by
    intro e he k hk
    rw [distance_nil_right, toInt_of_lt _ (hlen e he k hk)]
  constructor
  · intro e he k hk
    refine ⟨hscore e he k hk, ?_⟩
    rw [← hscore e he k hk]
    exact (mem_levDists [] _ _).mpr ⟨e, he, k, hk, rfl⟩
  · obtain ⟨e, he, k, hk, _, htarget, hmin⟩ :=
      receive_of_keyword sort hsort graph bot [] p hcur hkw
    refine ⟨e, he, k, hk, htarget, ?_⟩
    intro e' he' k' hk'
    have hle := hmin e' he' k' hk'
    rw [hscore e he k hk, hscore e' he' k' hk'] at hle
    exact_mod_cast hle

/-- C18, amended, at the node with the edges {"hey"} and {"hi"} and the empty message. -/
theorem C18_empty_message_witness :
    StdSortContract stableSort ∧ sampleBot._currentNode = some 0 ∧
    ∃ e ∈ (graphOf [heyEdge, hiEdge] 0).childEdges, ∃ k ∈ e.keywords,
      ReceiveMessageFromUser stableSort (graphOf [heyEdge, hiEdge]) sampleBot []
        = some e.childNode ∧
      ∀ e' ∈ (graphOf [heyEdge, hiEdge] 0).childEdges, ∀ k' ∈ e'.keywords,
        k.length ≤ k'.length :=
  ⟨stableSort_contract, rfl,
    (C18_empty_message stableSort stableSort_contract (graphOf [heyEdge, hiEdge]) sampleBot 0
      rfl ⟨heyEdge, by decide, by decide⟩ (by decide)).2⟩

/-- C19 fails as stated: the empty string and the string of `2 ^ 32` letters "a" differ
also after upper-casing, yet their distance `2 ^ 32` is narrowed to the `int` 0; and the
string of `2 ^ 31` letters "a" differs from the empty string but scores `-2147483648`,
which is not at least 1. -/
theorem C19_counterexample :
    ComputeLevenshteinDistance [] (List.replicate (2 ^ 32) 'a') = 0 ∧
    ([] : CppString).map toupper ≠ (List.replicate (2 ^ 32) 'a').map toupper ∧
    ComputeLevenshteinDistance (List.replicate (2 ^ 31) 'a') [] = -2147483648 := by
  refine ⟨?_, ?_, ?_⟩
  · rw [distance_nil_left, List.length_replicate]
    exact toInt_two_pow_32
  · intro h
    have hlen := congrArg List.length h
    simp only [List.length_map, List.length_replicate, List.map_nil, List.length_nil] at hlen
    exact absurd hlen (by decide)
  · rw [distance_nil_right, List.length_replicate]
    exact toInt_two_pow_31

/-- C19, amended: whenever the result fits in an `int` (the distance of the upper-cased
strings is below `2 ^ 31`, as it is when both strings are shorter than that), the computed
distance is 0 exactly when the upper-cased strings are equal, and it is at least 1 when
they differ in any character or in length. -/
theorem C19_zero_iff_match (a b : CppString)
    (hfits : lev (a.map toupper) (b.map toupper) < 2 ^ 31 ∨
      (a.length < 2 ^ 31 ∧ b.length < 2 ^ 31)) :
    (ComputeLevenshteinDistance a b = 0 ↔ a.map toupper = b.map toupper) ∧
    (a.map toupper ≠ b.map toupper → 1 ≤ ComputeLevenshteinDistance a b) := by
  have hd := distance_eq_lev_of_fits a b hfits
  have hzero : ComputeLevenshteinDistance a b = 0 → a.map toupper = b.map toupper := by
    intro h0
    rw [hd] at h0
    exact eq_of_lev_eq_zero _ _ (by exact_mod_cast h0)
  refine ⟨⟨hzero, fun h => distance_eq_zero_of_fold_eq a b h⟩, ?_⟩
  intro hne
  have hpos : lev (a.map toupper) (b.map toupper) ≠ 0 := by
    intro h0
    apply hne
    apply hzero
    rw [hd, h0]
    rfl
  rw [hd]
  have : 1 ≤ lev (a.map toupper) (b.map toupper) := Nat.one_le_iff_ne_zero.mpr hpos
  exact_mod_cast this

/-- C19, amended, at "hi" and "hey": they differ and their distance is at least 1. -/
theorem C19_zero_iff_match_witness :
    ("hi".toList.length < 2 ^ 31 ∧ "hey".toList.length < 2 ^ 31) ∧
    "hi".toList.map toupper ≠ "hey".toList.map toupper ∧
    1 ≤ ComputeLevenshteinDistance "hi".toList "hey".toList :=
  ⟨⟨by decide, by decide⟩, by decide,
    (C19_zero_iff_match "hi".toList "hey".toList (Or.inr ⟨by decide, by decide⟩)).2
      (by decide)⟩
